import Mathlib

/-!
Verification of the asynchronous task engine in
`src/python/multi-threaded-api/src/httpapi/apiroutes/handler/__init__.py`
(the `ResponseQueue` result store over sqlite, the `Handler` dispatcher
thread, the `TaskProcessor` registry in `handler/tasks.py`) and the HTTP
glue in `src/httpapi/apiroutes/__init__.py` (`enqueue_task`,
`task_queue_status`).

Shallow embedding conventions:
- Python structured data (the trees of dicts / lists / scalars that flow
  through the engine) is `PyVal`.  Python tuples serialize to JSON arrays
  exactly like lists, so lists and tuples share the `vlist` constructor.
  Python floats are not modelled (no claim needs them); ints are `Int`.
- `json.dumps` (default arguments) is `json_dumps`; `json.loads` is
  `json_loads`.  Both are modelled concretely: `json_dumps` emits exactly
  Python's default output format (separators and all)
  except that non-ASCII characters are left unescaped where Python's
  `ensure_ascii=True` would emit surrogate-pair escapes; `json_loads` is a
  genuine recursive-descent parser for the fragment of JSON that values of
  `PyVal` serialize into (it is laxer than CPython's on some malformed
  inputs, e.g. leading zeros, which no `json_dumps` output contains).
- The sqlite table behind `ResponseQueue` is a list of `TaskRow`; column
  binding of Python values follows the sqlite3 adapter rules (str -> TEXT,
  int/bool -> INTEGER, None -> NULL).  All strings are `List Char`.
- Thread interleavings are explicit: the dispatcher's sequential drain of
  the submission queue is a fold, and the state before the dispatcher has
  dequeued a task is directly expressible.
-/

/-- Python structured data: the payloads and results the engine moves around. -/
inductive PyVal where
  | vnone
  | vbool (b : Bool)
  | vint (n : Int)
  | vstr (s : List Char)
  | vlist (xs : List PyVal)
  | vdict (xs : List (List Char × PyVal))

/-! ## Model of `json.dumps` (default arguments) -/

/-- Decimal digits of `n`, most significant first, in front of `acc`.
The fuel argument keeps the recursion structural; `natChars` supplies
enough fuel for the value at hand. -/
def natDigsAux : Nat → Nat → List Char → List Char
  | 0, _, acc => acc
  | fuel + 1, n, acc =>
      if n < 10 then Char.ofNat (48 + n % 10) :: acc
      else natDigsAux fuel (n / 10) (Char.ofNat (48 + n % 10) :: acc)

/-- Decimal digit characters of a natural number. -/
def natChars (n : Nat) : List Char := natDigsAux (n + 1) n []

/-- Decimal rendering of a Python int, as `json.dumps` (= `repr`) emits it. -/
def intChars (i : Int) : List Char :=
  (if i < 0 then ['-'] else []) ++ natChars i.natAbs

/-- Lower-case hexadecimal digit character, as in Python's escape output. -/
def hexDig (n : Nat) : Char := if n < 10 then Char.ofNat (48 + n) else Char.ofNat (87 + n)

/-- One character of a JSON string body, escaped the way `json.dumps` escapes
it: the two mandatory escapes, the short control escapes, and a lower-case
4-digit escape for the remaining control characters. -/
def escChar (c : Char) : List Char :=
  if c = '"' then ['\\', '"']
  else if c = '\\' then ['\\', '\\']
  else if c = '\n' then ['\\', 'n']
  else if c = '\r' then ['\\', 'r']
  else if c = '\t' then ['\\', 't']
  else if c = Char.ofNat 8 then ['\\', 'b']
  else if c = Char.ofNat 12 then ['\\', 'f']
  else if c.toNat < 32 then ['\\', 'u', '0', '0', hexDig (c.toNat / 16), hexDig (c.toNat % 16)]
  else [c]

/-- The escaped body of a JSON string. -/
def escList : List Char → List Char
  | [] => []
  | c :: cs => escChar c ++ escList cs

/-- A JSON string literal with its quotes. -/
def dumpStr (s : List Char) : List Char := '"' :: (escList s ++ ['"'])

mutual
/-- Model of `json.dumps` on one value: Python's default item separator is
a comma followed by a space, the key separator a colon followed by a space. -/
def dumpVal : PyVal → List Char
  | .vnone => ['n', 'u', 'l', 'l']
  | .vbool true => ['t', 'r', 'u', 'e']
  | .vbool false => ['f', 'a', 'l', 's', 'e']
  | .vint n => intChars n
  | .vstr s => dumpStr s
  | .vlist xs => '[' :: (dumpItems xs ++ [']'])
  | .vdict xs => '{' :: (dumpPairs xs ++ ['}'])
termination_by structural v => v
/-- Array elements joined by Python's default separator. -/
def dumpItems : List PyVal → List Char
  | [] => []
  | x :: t => dumpVal x ++ dumpItemsRest t
termination_by structural xs => xs
/-- Separator-led tail of an array body. -/
def dumpItemsRest : List PyVal → List Char
  | [] => []
  | x :: t => ',' :: ' ' :: (dumpVal x ++ dumpItemsRest t)
termination_by structural xs => xs
/-- Object members joined by Python's default separators. -/
def dumpPairs : List (List Char × PyVal) → List Char
  | [] => []
  | (k, v) :: t => dumpStr k ++ ':' :: ' ' :: (dumpVal v ++ dumpPairsRest t)
termination_by structural xs => xs
/-- Separator-led tail of an object body. -/
def dumpPairsRest : List (List Char × PyVal) → List Char
  | [] => []
  | (k, v) :: t => ',' :: ' ' :: (dumpStr k ++ ':' :: ' ' :: (dumpVal v ++ dumpPairsRest t))
termination_by structural xs => xs
end

/-- Model of `json.dumps` with its default arguments. -/
def json_dumps (v : PyVal) : List Char := dumpVal v

/-! ## Model of `json.loads` -/

/-- JSON whitespace. -/
def isWsC (c : Char) : Bool :=
  c = ' ' || c = Char.ofNat 9 || c = Char.ofNat 10 || c = Char.ofNat 13

/-- Drop leading JSON whitespace. -/
def dropWs : List Char → List Char
  | c :: cs => if isWsC c then dropWs cs else c :: cs
  | [] => []

/-- ASCII decimal digit test. -/
def isDigC (c : Char) : Bool := 48 ≤ c.toNat && c.toNat ≤ 57

/-- Split off the leading run of decimal digits. -/
def readDigits : List Char → List Char × List Char
  | c :: cs =>
      if isDigC c then
        let p := readDigits cs
        (c :: p.1, p.2)
      else ([], c :: cs)
  | [] => ([], [])

/-- Numeric value of a digit run. -/
def digVal (ds : List Char) : Nat := ds.foldl (fun a c => a * 10 + (c.toNat - 48)) 0

/-- Parse an optionally-signed decimal integer. -/
def readInt : List Char → Option (Int × List Char)
  | '-' :: cs =>
      match readDigits cs with
      | ([], _) => none
      | (ds, r) => some (-(digVal ds : Int), r)
  | cs =>
      match readDigits cs with
      | ([], _) => none
      | (ds, r) => some ((digVal ds : Int), r)

/-- Value of a hexadecimal digit character. -/
def hexValC (c : Char) : Option Nat :=
  if 48 ≤ c.toNat && c.toNat ≤ 57 then some (c.toNat - 48)
  else if 97 ≤ c.toNat && c.toNat ≤ 102 then some (c.toNat - 87)
  else if 65 ≤ c.toNat && c.toNat ≤ 70 then some (c.toNat - 55)
  else none

/-- Single-character JSON escapes. -/
def unescC (e : Char) : Option Char :=
  if e = 'n' then some (Char.ofNat 10)
  else if e = 't' then some (Char.ofNat 9)
  else if e = 'r' then some (Char.ofNat 13)
  else if e = 'b' then some (Char.ofNat 8)
  else if e = 'f' then some (Char.ofNat 12)
  else if e = '"' ∨ e = '\\' ∨ e = '/' then some e
  else none

/-- Code point of a 4-digit hexadecimal escape. -/
def hex4 (a b c d : Char) : Option Nat :=
  match hexValC a, hexValC b, hexValC c, hexValC d with
  | some va, some vb, some vc, some vd => some (((va * 16 + vb) * 16 + vc) * 16 + vd)
  | _, _, _, _ => none

/-- Parse a JSON string body after its opening quote. -/
def readStr (acc : List Char) : List Char → Option (List Char × List Char)
  | '"' :: r => some (acc.reverse, r)
  | '\\' :: e :: r =>
      if e = 'u' then
        match r with
        | a :: b :: c :: d :: r2 =>
            match hex4 a b c d with
            | some n => readStr (Char.ofNat n :: acc) r2
            | none => none
        | _ => none
      else
        match unescC e with
        | some ch => readStr (ch :: acc) r
        | none => none
  | c :: r => readStr (c :: acc) r
  | [] => none
termination_by structural cs => cs

mutual
/-- Parse one JSON value (fuel-indexed recursive descent). -/
def readVal : Nat → List Char → Option (PyVal × List Char)
  | 0, _ => none
  | fuel + 1, cs =>
    match dropWs cs with
    | 'n' :: 'u' :: 'l' :: 'l' :: r => some (.vnone, r)
    | 't' :: 'r' :: 'u' :: 'e' :: r => some (.vbool true, r)
    | 'f' :: 'a' :: 'l' :: 's' :: 'e' :: r => some (.vbool false, r)
    | '"' :: r =>
        match readStr [] r with
        | some (s, r1) => some (.vstr s, r1)
        | none => none
    | '[' :: r =>
        match dropWs r with
        | ']' :: r1 => some (.vlist [], r1)
        | r1 =>
            match readItems fuel r1 with
            | some (xs, r2) => some (.vlist xs, r2)
            | none => none
    | '{' :: r =>
        match dropWs r with
        | '}' :: r1 => some (.vdict [], r1)
        | r1 =>
            match readPairs fuel r1 with
            | some (xs, r2) => some (.vdict xs, r2)
            | none => none
    | cs1 =>
        match readInt cs1 with
        | some (n, r) => some (.vint n, r)
        | none => none
termination_by structural fuel => fuel
/-- Parse one or more comma-separated array elements and the closing bracket. -/
def readItems : Nat → List Char → Option (List PyVal × List Char)
  | 0, _ => none
  | fuel + 1, cs =>
    match readVal fuel cs with
    | none => none
    | some (v, r) =>
        match dropWs r with
        | ',' :: r1 =>
            match readItems fuel r1 with
            | some (vs, r2) => some (v :: vs, r2)
            | none => none
        | ']' :: r1 => some ([v], r1)
        | _ => none
termination_by structural fuel => fuel
/-- Parse one or more object members and the closing brace. -/
def readPairs : Nat → List Char → Option (List (List Char × PyVal) × List Char)
  | 0, _ => none
  | fuel + 1, cs =>
    match dropWs cs with
    | '"' :: r =>
        match readStr [] r with
        | none => none
        | some (k, r1) =>
            match dropWs r1 with
            | ':' :: r2 =>
                match readVal fuel r2 with
                | none => none
                | some (v, r3) =>
                    match dropWs r3 with
                    | ',' :: r4 =>
                        match readPairs fuel r4 with
                        | some (ps, r5) => some ((k, v) :: ps, r5)
                        | none => none
                    | '}' :: r4 => some ([(k, v)], r4)
                    | _ => none
            | _ => none
    | _ => none
termination_by structural fuel => fuel
end

/-- Model of `json.loads`: parse a complete document, requiring only
whitespace after the value. -/
def json_loads (cs : List Char) : Option PyVal :=
  match readVal (cs.length + 1) cs with
  | some (v, r) => if dropWs r = [] then some v else none
  | none => none

/-! ## Round-trip: digits -/

theorem natDigsAux_acc (f : Nat) : ∀ (n : Nat) (acc : List Char),
    natDigsAux f n acc = natDigsAux f n [] ++ acc := by
  induction f with
  | zero => intro n acc; simp [natDigsAux]
  | succ f ih =>
      intro n acc
      by_cases h : n < 10
      · simp [natDigsAux, h]
      · simp only [natDigsAux, if_neg h]
        rw [ih (n / 10) (Char.ofNat (48 + n % 10) :: acc),
            ih (n / 10) [Char.ofNat (48 + n % 10)]]
        simp

theorem natDigsAux_fuel (n : Nat) : ∀ f : Nat, n < f → natDigsAux f n [] = natChars n := by
  induction n using Nat.strong_induction_on with
  | _ n ih =>
    intro f hf
    match f with
    | 0 => omega
    | f + 1 =>
      by_cases h : n < 10
      · simp [natDigsAux, natChars, h]
      · have hdiv : n / 10 < n := Nat.div_lt_self (by omega) (by omega)
        simp only [natDigsAux, if_neg h, natChars]
        rw [natDigsAux_acc f, natDigsAux_acc n]
        rw [ih (n / 10) hdiv f (by omega), ih (n / 10) hdiv n (by omega)]

theorem natChars_unfold (n : Nat) :
    natChars n = (if n < 10 then [] else natChars (n / 10)) ++ [Char.ofNat (48 + n % 10)] := by
  have step : natChars n = if n < 10 then [Char.ofNat (48 + n % 10)]
      else natDigsAux n (n / 10) [Char.ofNat (48 + n % 10)] := rfl
  rw [step]
  by_cases h : n < 10
  · simp [h]
  · rw [if_neg h, if_neg h, natDigsAux_acc n (n / 10), natDigsAux_fuel (n / 10) n (by omega)]

theorem digChar_spec : ∀ k : Nat, k < 10 →
    isDigC (Char.ofNat (48 + k)) = true ∧ (Char.ofNat (48 + k)).toNat = 48 + k := by
  decide

theorem natChars_digits (n : Nat) : ∀ c ∈ natChars n, isDigC c = true := by
  induction n using Nat.strong_induction_on with
  | _ n ih =>
    rw [natChars_unfold]
    intro c hc
    rcases List.mem_append.mp hc with h | h
    · by_cases h10 : n < 10
      · simp [h10] at h
      · have hdiv : n / 10 < n := Nat.div_lt_self (by omega) (by omega)
        exact ih (n / 10) hdiv c (by simpa [h10] using h)
    · rcases List.mem_singleton.mp h with rfl
      exact (digChar_spec (n % 10) (Nat.mod_lt _ (by omega))).1

theorem natChars_ne_nil (n : Nat) : natChars n ≠ [] := by
  rw [natChars_unfold]; simp

theorem digVal_natChars (n : Nat) : digVal (natChars n) = n := by
  induction n using Nat.strong_induction_on with
  | _ n ih =>
    rw [natChars_unfold]
    unfold digVal
    rw [List.foldl_append]
    by_cases h : n < 10
    · simp only [if_pos h, List.foldl_nil, List.foldl_cons]
      rw [(digChar_spec (n % 10) (Nat.mod_lt _ (by omega))).2]
      omega
    · have hdiv : n / 10 < n := Nat.div_lt_self (by omega) (by omega)
      simp only [if_neg h, List.foldl_cons, List.foldl_nil]
      have := ih (n / 10) hdiv
      unfold digVal at this
      rw [this, (digChar_spec (n % 10) (Nat.mod_lt _ (by omega))).2]
      omega

theorem natChars_cons (n : Nat) :
    ∃ c t, natChars n = c :: t ∧ isDigC c = true := by
  match h : natChars n with
  | [] => exact absurd h (natChars_ne_nil n)
  | c :: t =>
      refine ⟨c, t, rfl, natChars_digits n c ?_⟩
      rw [h]; exact List.mem_cons_self c t

/-! ## Round-trip: integer tokens -/

/-- A continuation that cannot extend a digit run: empty input or a non-digit
head.  Every JSON delimiter the printer can emit after a number qualifies. -/
def noDigHead : List Char → Bool
  | [] => true
  | c :: _ => !(isDigC c)

theorem isDigC_ne {c d : Char} (hc : isDigC c = true) (hd : isDigC d = false) : c ≠ d := by
  intro h
  rw [h, hd] at hc
  exact Bool.false_ne_true hc

theorem readDigits_stop {cs : List Char} (h : noDigHead cs = true) : readDigits cs = ([], cs) := by
  match cs with
  | [] => rfl
  | c :: t =>
      have hc : isDigC c = false := by
        have := h
        simp only [noDigHead, Bool.not_eq_true'] at this
        exact this
      simp [readDigits, hc]

theorem readDigits_run : ∀ (ds : List Char), (∀ c ∈ ds, isDigC c = true) →
    ∀ (rest : List Char), noDigHead rest = true → readDigits (ds ++ rest) = (ds, rest) := by
  intro ds hds
  induction ds with
  | nil => intro rest hrest; simpa using readDigits_stop hrest
  | cons c t ih =>
      intro rest hrest
      have hc : isDigC c = true := hds c (List.mem_cons_self c t)
      have ht := ih (fun x hx => hds x (List.mem_cons_of_mem c hx)) rest hrest
      simp [readDigits, hc, ht]

theorem readInt_neg (cs : List Char) :
    readInt ('-' :: cs) = (match readDigits cs with
      | ([], _) => none
      | (ds, r) => some (-(digVal ds : Int), r)) := rfl

theorem readInt_nosign (c0 : Char) (t : List Char) (h : c0 ≠ '-') :
    readInt (c0 :: t) = (match readDigits (c0 :: t) with
      | ([], _) => none
      | (ds, r) => some ((digVal ds : Int), r)) := by
  rw [readInt.eq_def]
  split
  · rename_i heq
    cases heq
    exact absurd rfl h
  · rfl

theorem readInt_intChars (n : Int) (rest : List Char) (hr : noDigHead rest = true) :
    readInt (intChars n ++ rest) = some (n, rest) := by
  obtain ⟨c0, t0, h0, hc0⟩ := natChars_cons n.natAbs
  have hrun : readDigits (natChars n.natAbs ++ rest) = (natChars n.natAbs, rest) :=
    readDigits_run _ (natChars_digits n.natAbs) rest hr
  by_cases hn : n < 0
  · have harg : intChars n ++ rest = '-' :: (natChars n.natAbs ++ rest) := by
      simp [intChars, hn]
    rw [harg, readInt_neg, hrun, h0]
    show some (-(digVal (c0 :: t0) : Int), rest) = some (n, rest)
    have hd : digVal (natChars n.natAbs) = n.natAbs := digVal_natChars n.natAbs
    rw [h0] at hd
    rw [hd]
    have : -((n.natAbs : Nat) : Int) = n := by omega
    rw [this]
  · have harg : intChars n ++ rest = c0 :: (t0 ++ rest) := by
      simp [intChars, hn, h0]
    have hmas : c0 ≠ '-' := isDigC_ne hc0 (by decide)
    rw [harg, readInt_nosign c0 (t0 ++ rest) hmas]
    have hrun' : readDigits (c0 :: (t0 ++ rest)) = (c0 :: t0, rest) := by
      rw [← List.cons_append, ← h0]
      exact hrun
    rw [hrun']
    show some ((digVal (c0 :: t0) : Int), rest) = some (n, rest)
    rw [show digVal (c0 :: t0) = n.natAbs by rw [← h0]; exact digVal_natChars n.natAbs]
    have : ((n.natAbs : Nat) : Int) = n := by omega
    rw [this]

/-! ## Round-trip: string tokens -/

theorem hexVal_hexDig : ∀ k : Nat, k < 16 → hexValC (hexDig k) = some k := by decide

theorem readStr_escChar (c : Char) (acc rest : List Char) :
    readStr acc (escChar c ++ rest) = readStr (c :: acc) rest := by
  unfold escChar
  split_ifs with h1 h2 h3 h4 h5 h6 h7 h8
  · subst h1; rw [readStr.eq_def]; rfl
  · subst h2; rw [readStr.eq_def]; rfl
  · subst h3; rw [readStr.eq_def]; rfl
  · subst h4; rw [readStr.eq_def]; rfl
  · subst h5; rw [readStr.eq_def]; rfl
  · subst h6; rw [readStr.eq_def]; rfl
  · subst h7; rw [readStr.eq_def]; rfl
  · have hhi : c.toNat / 16 < 16 := by omega
    have hlo : c.toNat % 16 < 16 := Nat.mod_lt _ (by omega)
    have hhex : hex4 '0' '0' (hexDig (c.toNat / 16)) (hexDig (c.toNat % 16))
        = some c.toNat := by
      unfold hex4
      rw [show hexValC '0' = some 0 from by decide, hexVal_hexDig _ hhi, hexVal_hexDig _ hlo]
      show some (((0 * 16 + 0) * 16 + c.toNat / 16) * 16 + c.toNat % 16) = some c.toNat
      congr 1
      omega
    simp only [List.cons_append, List.nil_append]
    rw [readStr.eq_def]
    show (match hex4 '0' '0' (hexDig (c.toNat / 16)) (hexDig (c.toNat % 16)) with
      | some n => readStr (Char.ofNat n :: acc) rest
      | none => none) = readStr (c :: acc) rest
    rw [hhex]
    show readStr (Char.ofNat c.toNat :: acc) rest = readStr (c :: acc) rest
    rw [Char.ofNat_toNat c]
  · simp only [List.cons_append, List.nil_append]
    rw [readStr.eq_def]
    split
    · rename_i heq
      rw [List.cons.injEq] at heq
      exact absurd heq.1 h1
    · rename_i heq
      rw [List.cons.injEq] at heq
      exact absurd heq.1 h2
    · rename_i heq
      rw [List.cons.injEq] at heq
      rw [heq.1, heq.2]
    · rename_i heq
      cases heq

theorem readStr_escList : ∀ (s acc rest : List Char),
    readStr acc (escList s ++ '"' :: rest) = some (acc.reverse ++ s, rest)
  | [], acc, rest => by
      show readStr acc ('"' :: rest) = some (acc.reverse ++ [], rest)
      rw [readStr.eq_def]
      simp
  | c :: s, acc, rest => by
      show readStr acc ((escChar c ++ escList s) ++ '"' :: rest) = _
      rw [List.append_assoc, readStr_escChar, readStr_escList s (c :: acc) rest]
      simp

theorem dumpStr_read (s rest : List Char) :
    readStr [] (escList s ++ '"' :: rest) = some (s, rest) := by
  rw [readStr_escList]
  simp

/-! ## Round-trip: head characters and whitespace -/

theorem digit_not_ws {c : Char} (hc : isDigC c = true) : isWsC c = false := by
  have h1 : c ≠ ' ' := isDigC_ne hc (by decide)
  have h2 : c ≠ Char.ofNat 9 := isDigC_ne hc (by decide)
  have h3 : c ≠ Char.ofNat 10 := isDigC_ne hc (by decide)
  have h4 : c ≠ Char.ofNat 13 := isDigC_ne hc (by decide)
  simp [isWsC, h1, h2, h3, h4]

theorem dropWs_cons {c : Char} (h : isWsC c = false) (t : List Char) :
    dropWs (c :: t) = c :: t := by
  simp [dropWs, h]

theorem dumpVal_head (v : PyVal) :
    ∃ c t, dumpVal v = c :: t ∧ isWsC c = false ∧ c ≠ ']' ∧ c ≠ '}' := by
  cases v with
  | vint n =>
      by_cases hn : n < 0
      · refine ⟨'-', natChars n.natAbs, ?_, by decide⟩
        show intChars n = _
        simp [intChars, hn]
      · obtain ⟨c0, t0, h0, hc0⟩ := natChars_cons n.natAbs
        refine ⟨c0, t0, ?_, digit_not_ws hc0,
          isDigC_ne hc0 (by decide), isDigC_ne hc0 (by decide)⟩
        show intChars n = _
        simp [intChars, hn, h0]
  | vbool b => cases b <;> exact ⟨_, _, rfl, by decide⟩
  | vnone => exact ⟨_, _, rfl, by decide⟩
  | vstr s => exact ⟨_, _, rfl, by decide⟩
  | vlist xs => exact ⟨_, _, rfl, by decide⟩
  | vdict xs => exact ⟨_, _, rfl, by decide⟩

theorem dumpVal_len_pos (v : PyVal) : 1 ≤ (dumpVal v).length := by
  obtain ⟨c, t, h, -, -, -⟩ := dumpVal_head v
  rw [h]
  simp

/-! ## Round-trip: parser branch lemmas -/

theorem readVal_ws (fuel : Nat) (cs : List Char) :
    readVal (fuel + 1) (' ' :: cs) = readVal (fuel + 1) cs := by
  simp only [readVal]
  rw [show dropWs (' ' :: cs) = dropWs cs from by simp [dropWs, isWsC]]

theorem readItems_ws (f : Nat) (cs : List Char) :
    readItems (f + 2) (' ' :: cs) = readItems (f + 2) cs := by
  simp only [readItems]
  rw [readVal_ws]

theorem readPairs_ws (f : Nat) (cs : List Char) :
    readPairs (f + 1) (' ' :: cs) = readPairs (f + 1) cs := by
  simp only [readPairs]
  rw [show dropWs (' ' :: cs) = dropWs cs from by simp [dropWs, isWsC]]

theorem readVal_null (fuel : Nat) (r : List Char) :
    readVal (fuel + 1) ('n' :: 'u' :: 'l' :: 'l' :: r) = some (.vnone, r) := by
  rw [readVal.eq_def]; rfl

theorem readVal_true (fuel : Nat) (r : List Char) :
    readVal (fuel + 1) ('t' :: 'r' :: 'u' :: 'e' :: r) = some (.vbool true, r) := by
  rw [readVal.eq_def]; rfl

theorem readVal_false (fuel : Nat) (r : List Char) :
    readVal (fuel + 1) ('f' :: 'a' :: 'l' :: 's' :: 'e' :: r) = some (.vbool false, r) := by
  rw [readVal.eq_def]; rfl

theorem readVal_str (fuel : Nat) (r : List Char) :
    readVal (fuel + 1) ('"' :: r)
      = (match readStr [] r with
        | some (s, r1) => some (.vstr s, r1)
        | none => none) := by
  rw [readVal.eq_def]; rfl

theorem readVal_arr_nil (fuel : Nat) (rest : List Char) :
    readVal (fuel + 1) ('[' :: ']' :: rest) = some (.vlist [], rest) := by
  rw [readVal.eq_def]; rfl

theorem readVal_obj_nil (fuel : Nat) (rest : List Char) :
    readVal (fuel + 1) ('{' :: '}' :: rest) = some (.vdict [], rest) := by
  rw [readVal.eq_def]; rfl

theorem isDigC_head_lits {c : Char} (hc : isDigC c = true) :
    (c == 'n' || c == 't' || c == 'f' || c == '"' || c == '[' || c == '{') = false := by
  simp only [Bool.or_eq_false_iff, beq_eq_false_iff_ne]
  exact ⟨⟨⟨⟨⟨isDigC_ne hc (by decide), isDigC_ne hc (by decide)⟩,
    isDigC_ne hc (by decide)⟩, isDigC_ne hc (by decide)⟩,
    isDigC_ne hc (by decide)⟩, isDigC_ne hc (by decide)⟩

theorem readVal_int_head (fuel : Nat) (c0 : Char) (t : List Char)
    (hws : isWsC c0 = false)
    (hlit : (c0 == 'n' || c0 == 't' || c0 == 'f'
      || c0 == '"' || c0 == '[' || c0 == '{') = false) :
    readVal (fuel + 1) (c0 :: t)
      = (match readInt (c0 :: t) with
        | some (n, r) => some (.vint n, r)
        | none => none) := by
  simp only [Bool.or_eq_false_iff, beq_eq_false_iff_ne] at hlit
  obtain ⟨⟨⟨⟨⟨hn, ht⟩, hf⟩, hq⟩, hlb⟩, hob⟩ := hlit
  simp only [readVal]
  rw [dropWs_cons hws]
  split
  · rename_i heq; rw [List.cons.injEq] at heq; exact absurd heq.1 hn
  · rename_i heq; rw [List.cons.injEq] at heq; exact absurd heq.1 ht
  · rename_i heq; rw [List.cons.injEq] at heq; exact absurd heq.1 hf
  · rename_i heq; rw [List.cons.injEq] at heq; exact absurd heq.1 hq
  · rename_i heq; rw [List.cons.injEq] at heq; exact absurd heq.1 hlb
  · rename_i heq; rw [List.cons.injEq] at heq; exact absurd heq.1 hob
  · rfl

theorem readVal_arr (fuel : Nat) (c : Char) (t : List Char)
    (hws : isWsC c = false) (hc : c ≠ ']') :
    readVal (fuel + 1) ('[' :: c :: t)
      = (match readItems fuel (c :: t) with
        | some (xs, r2) => some (.vlist xs, r2)
        | none => none) := by
  simp only [readVal]
  rw [show dropWs ('[' :: c :: t) = '[' :: c :: t from dropWs_cons (by decide) _]
  show (match dropWs (c :: t) with
    | ']' :: r1 => some (PyVal.vlist [], r1)
    | r1 => (match readItems fuel r1 with
        | some (xs, r2) => some (PyVal.vlist xs, r2)
        | none => none)) = _
  rw [dropWs_cons hws]
  split
  · rename_i heq; rw [List.cons.injEq] at heq; exact absurd heq.1 hc
  · rfl

theorem readVal_obj (fuel : Nat) (c : Char) (t : List Char)
    (hws : isWsC c = false) (hc : c ≠ '}') :
    readVal (fuel + 1) ('{' :: c :: t)
      = (match readPairs fuel (c :: t) with
        | some (xs, r2) => some (.vdict xs, r2)
        | none => none) := by
  simp only [readVal]
  rw [show dropWs ('{' :: c :: t) = '{' :: c :: t from dropWs_cons (by decide) _]
  show (match dropWs (c :: t) with
    | '}' :: r1 => some (PyVal.vdict [], r1)
    | r1 => (match readPairs fuel r1 with
        | some (xs, r2) => some (PyVal.vdict xs, r2)
        | none => none)) = _
  rw [dropWs_cons hws]
  split
  · rename_i heq; rw [List.cons.injEq] at heq; exact absurd heq.1 hc
  · rfl

/-! ## Round-trip: separator and length bookkeeping -/

theorem dumpItemsRest_cons (y : PyVal) (ys : List PyVal) :
    dumpItemsRest (y :: ys) = ',' :: ' ' :: dumpItems (y :: ys) := by
  simp [dumpItemsRest, dumpItems]

theorem dumpPairsRest_cons (k : List Char) (v : PyVal) (ps : List (List Char × PyVal)) :
    dumpPairsRest ((k, v) :: ps) = ',' :: ' ' :: dumpPairs ((k, v) :: ps) := by
  simp [dumpPairsRest, dumpPairs]

theorem noDigHead_cons (c : Char) (t : List Char) : noDigHead (c :: t) = !(isDigC c) := by
  simp [noDigHead]

theorem noDigHead_itemsRest (xs : List PyVal) (rest : List Char) :
    noDigHead (dumpItemsRest xs ++ ']' :: rest) = true := by
  cases xs with
  | nil =>
      rw [show dumpItemsRest [] = [] from by simp [dumpItemsRest]]
      rw [List.nil_append, noDigHead_cons]
      decide
  | cons y ys =>
      rw [dumpItemsRest_cons, List.cons_append, noDigHead_cons]
      decide

theorem noDigHead_pairsRest (ps : List (List Char × PyVal)) (rest : List Char) :
    noDigHead (dumpPairsRest ps ++ '}' :: rest) = true := by
  cases ps with
  | nil =>
      rw [show dumpPairsRest [] = [] from by simp [dumpPairsRest]]
      rw [List.nil_append, noDigHead_cons]
      decide
  | cons p ps2 =>
      obtain ⟨k2, v2⟩ := p
      rw [dumpPairsRest_cons, List.cons_append, noDigHead_cons]
      decide

theorem dumpItems_len_pos (y : PyVal) (ys : List PyVal) :
    1 ≤ (dumpItems (y :: ys)).length := by
  have h := dumpVal_len_pos y
  rw [show dumpItems (y :: ys) = dumpVal y ++ dumpItemsRest ys from by simp [dumpItems]]
  rw [List.length_append]
  omega

theorem dumpPairs_len_pos (k : List Char) (v : PyVal) (ps : List (List Char × PyVal)) :
    1 ≤ (dumpPairs ((k, v) :: ps)).length := by
  rw [show dumpPairs ((k, v) :: ps)
      = dumpStr k ++ ':' :: ' ' :: (dumpVal v ++ dumpPairsRest ps) from by simp [dumpPairs]]
  rw [List.length_append]
  simp [dumpStr]
  omega

theorem readPairs_key (fuel : Nat) (r : List Char) :
    readPairs (fuel + 1) ('"' :: r)
      = (match readStr [] r with
        | none => none
        | some (k, r1) =>
            match dropWs r1 with
            | ':' :: r2 =>
                (match readVal fuel r2 with
                | none => none
                | some (v, r3) =>
                    match dropWs r3 with
                    | ',' :: r4 =>
                        (match readPairs fuel r4 with
                        | some (ps, r5) => some ((k, v) :: ps, r5)
                        | none => none)
                    | '}' :: r4 => some ([(k, v)], r4)
                    | _ => none)
            | _ => none) := by
  rw [readPairs.eq_def]; rfl

/-! ## Round-trip: the main induction -/

mutual
theorem rt_val : ∀ (v : PyVal) (fuel : Nat) (rest : List Char),
    (dumpVal v).length < fuel → noDigHead rest = true →
    readVal fuel (dumpVal v ++ rest) = some (v, rest)
  | .vnone, fuel, rest, hf, _ => by
      cases fuel with
      | zero => exact absurd hf (Nat.not_lt_zero _)
      | succ f =>
          show readVal (f + 1) ('n' :: 'u' :: 'l' :: 'l' :: rest) = _
          rw [readVal_null]
  | .vbool true, fuel, rest, hf, _ => by
      cases fuel with
      | zero => exact absurd hf (Nat.not_lt_zero _)
      | succ f =>
          show readVal (f + 1) ('t' :: 'r' :: 'u' :: 'e' :: rest) = _
          rw [readVal_true]
  | .vbool false, fuel, rest, hf, _ => by
      cases fuel with
      | zero => exact absurd hf (Nat.not_lt_zero _)
      | succ f =>
          show readVal (f + 1) ('f' :: 'a' :: 'l' :: 's' :: 'e' :: rest) = _
          rw [readVal_false]
  | .vint n, fuel, rest, hf, hrest => by
      cases fuel with
      | zero => exact absurd hf (Nat.not_lt_zero _)
      | succ f =>
          have hread : readInt (intChars n ++ rest) = some (n, rest) :=
            readInt_intChars n rest hrest
          by_cases hn : n < 0
          · have harg : dumpVal (.vint n) ++ rest = '-' :: (natChars n.natAbs ++ rest) := by
              show intChars n ++ rest = _
              simp [intChars, hn]
            have hread' : readInt ('-' :: (natChars n.natAbs ++ rest)) = some (n, rest) := by
              rw [← harg]; exact hread
            rw [harg, readVal_int_head f '-' _ (by decide) (by decide), hread']
          · obtain ⟨c0, t0, h0, hc0⟩ := natChars_cons n.natAbs
            have harg : dumpVal (.vint n) ++ rest = c0 :: (t0 ++ rest) := by
              show intChars n ++ rest = _
              simp [intChars, hn, h0]
            have hread' : readInt (c0 :: (t0 ++ rest)) = some (n, rest) := by
              rw [← harg]; exact hread
            rw [harg, readVal_int_head f c0 _ (digit_not_ws hc0)
                (isDigC_head_lits hc0), hread']
  | .vstr s, fuel, rest, hf, _ => by
      cases fuel with
      | zero => exact absurd hf (Nat.not_lt_zero _)
      | succ f =>
          have harg : dumpVal (.vstr s) ++ rest = '"' :: (escList s ++ '"' :: rest) := by
            show dumpStr s ++ rest = _
            simp [dumpStr]
          rw [harg, readVal_str, dumpStr_read]
  | .vlist [], fuel, rest, hf, _ => by
      cases fuel with
      | zero => exact absurd hf (Nat.not_lt_zero _)
      | succ f =>
          have harg : dumpVal (.vlist []) ++ rest = '[' :: ']' :: rest := by
            show ('[' :: (dumpItems [] ++ [']'])) ++ rest = _
            simp [dumpItems]
          rw [harg, readVal_arr_nil]
  | .vlist (x :: xs), fuel, rest, hf, _ => by
      cases fuel with
      | zero => exact absurd hf (Nat.not_lt_zero _)
      | succ f =>
          obtain ⟨c, t, hx, hws, hbr, -⟩ := dumpVal_head x
          have hsplit : dumpItems (x :: xs) ++ ']' :: rest
              = c :: (t ++ (dumpItemsRest xs ++ ']' :: rest)) := by
            simp [dumpItems, hx]
          have harg : dumpVal (.vlist (x :: xs)) ++ rest
              = '[' :: (c :: (t ++ (dumpItemsRest xs ++ ']' :: rest))) := by
            show ('[' :: (dumpItems (x :: xs) ++ [']'])) ++ rest = _
            rw [← hsplit]
            simp
          have hlen : (dumpVal (.vlist (x :: xs))).length = (dumpItems (x :: xs)).length + 2 := by
            show ('[' :: (dumpItems (x :: xs) ++ [']'])).length = _
            simp
          have hitems : readItems f (c :: (t ++ (dumpItemsRest xs ++ ']' :: rest)))
              = some (x :: xs, rest) := by
            rw [← hsplit]
            exact rt_items x xs f rest (by omega)
          rw [harg, readVal_arr f c _ hws hbr, hitems]
  | .vdict [], fuel, rest, hf, _ => by
      cases fuel with
      | zero => exact absurd hf (Nat.not_lt_zero _)
      | succ f =>
          have harg : dumpVal (.vdict []) ++ rest = '{' :: '}' :: rest := by
            show ('{' :: (dumpPairs [] ++ ['}'])) ++ rest = _
            simp [dumpPairs]
          rw [harg, readVal_obj_nil]
  | .vdict ((k, v) :: ps), fuel, rest, hf, _ => by
      cases fuel with
      | zero => exact absurd hf (Nat.not_lt_zero _)
      | succ f =>
          have hsplit : dumpPairs ((k, v) :: ps) ++ '}' :: rest
              = '"' :: (escList k ++ '"' :: ':' :: ' ' :: (dumpVal v ++ (dumpPairsRest ps ++ '}' :: rest))) := by
            simp [dumpPairs, dumpStr]
          have harg : dumpVal (.vdict ((k, v) :: ps)) ++ rest
              = '{' :: ('"' :: (escList k ++ '"' :: ':' :: ' ' :: (dumpVal v ++ (dumpPairsRest ps ++ '}' :: rest)))) := by
            show ('{' :: (dumpPairs ((k, v) :: ps) ++ ['}'])) ++ rest = _
            rw [← hsplit]
            simp
          have hlen : (dumpVal (.vdict ((k, v) :: ps))).length = (dumpPairs ((k, v) :: ps)).length + 2 := by
            show ('{' :: (dumpPairs ((k, v) :: ps) ++ ['}'])).length = _
            simp
          have hpairs : readPairs f ('"' :: (escList k ++ '"' :: ':' :: ' ' :: (dumpVal v ++ (dumpPairsRest ps ++ '}' :: rest))))
              = some ((k, v) :: ps, rest) := by
            rw [← hsplit]
            exact rt_pairs k v ps f rest (by omega)
          rw [harg, readVal_obj f '"' _ (by decide) (by decide), hpairs]
termination_by v _ _ _ _ => sizeOf v
decreasing_by
  all_goals simp_wf
  all_goals try subst_vars
  all_goals try simp only [List.cons.sizeOf_spec, Prod.mk.sizeOf_spec, PyVal.vlist.sizeOf_spec,
    PyVal.vdict.sizeOf_spec]
  all_goals omega
theorem rt_items : ∀ (x : PyVal) (xs : List PyVal) (fuel : Nat) (rest : List Char),
    (dumpItems (x :: xs)).length + 1 < fuel →
    readItems fuel (dumpItems (x :: xs) ++ ']' :: rest) = some (x :: xs, rest)
  | x, xs, fuel, rest, hf => by
      cases fuel with
      | zero => exact absurd hf (Nat.not_lt_zero _)
      | succ f =>
          have hxlen : (dumpItems (x :: xs)).length
              = (dumpVal x).length + (dumpItemsRest xs).length := by
            rw [show dumpItems (x :: xs) = dumpVal x ++ dumpItemsRest xs from by simp [dumpItems]]
            simp
          have hsplit : dumpItems (x :: xs) ++ ']' :: rest
              = dumpVal x ++ (dumpItemsRest xs ++ ']' :: rest) := by
            simp [dumpItems]
          have hv : readVal f (dumpVal x ++ (dumpItemsRest xs ++ ']' :: rest))
              = some (x, dumpItemsRest xs ++ ']' :: rest) :=
            rt_val x f _ (by omega) (noDigHead_itemsRest xs rest)
          simp only [readItems]
          rw [hsplit, hv]
          cases xs with
          | nil =>
              rw [show dumpItemsRest ([] : List PyVal) ++ ']' :: rest = ']' :: rest from by
                simp [dumpItemsRest]]
              rfl
          | cons y ys =>
              have hrest2 : dumpItemsRest (y :: ys) ++ ']' :: rest
                  = ',' :: ' ' :: (dumpItems (y :: ys) ++ ']' :: rest) := by
                rw [dumpItemsRest_cons]
                simp
              have hylen : (dumpItemsRest (y :: ys)).length = (dumpItems (y :: ys)).length + 2 := by
                rw [dumpItemsRest_cons]
                simp
              have hypos := dumpItems_len_pos y ys
              have hxpos := dumpVal_len_pos x
              obtain ⟨f2, rfl⟩ : ∃ f2, f = f2 + 2 := ⟨f - 2, by omega⟩
              rw [hrest2]
              show (match readItems (f2 + 2) (' ' :: (dumpItems (y :: ys) ++ ']' :: rest)) with
                | some (vs, r2) => some (x :: vs, r2)
                | none => none) = some (x :: y :: ys, rest)
              rw [readItems_ws, rt_items y ys (f2 + 2) rest (by omega)]
termination_by x xs _ _ _ => 1 + sizeOf x + sizeOf xs
decreasing_by
  all_goals simp_wf
  all_goals try subst_vars
  all_goals try simp only [List.cons.sizeOf_spec, Prod.mk.sizeOf_spec, PyVal.vlist.sizeOf_spec,
    PyVal.vdict.sizeOf_spec]
  all_goals omega
theorem rt_pairs : ∀ (k : List Char) (v : PyVal) (ps : List (List Char × PyVal))
    (fuel : Nat) (rest : List Char),
    (dumpPairs ((k, v) :: ps)).length + 1 < fuel →
    readPairs fuel (dumpPairs ((k, v) :: ps) ++ '}' :: rest) = some ((k, v) :: ps, rest)
  | k, v, [], fuel, rest, hf => by
      cases fuel with
      | zero => exact absurd hf (Nat.not_lt_zero _)
      | succ f =>
          have hsplit : dumpPairs [(k, v)] ++ '}' :: rest
              = '"' :: (escList k ++ '"' :: ':' :: ' ' :: (dumpVal v ++ (dumpPairsRest ([] : List (List Char × PyVal)) ++ '}' :: rest))) := by
            simp [dumpPairs, dumpStr]
          have hklen : (dumpPairs [(k, v)]).length
              = (escList k).length + 2 + 2 + ((dumpVal v).length + (dumpPairsRest ([] : List (List Char × PyVal))).length) := by
            rw [show dumpPairs [(k, v)]
                = dumpStr k ++ ':' :: ' ' :: (dumpVal v ++ dumpPairsRest []) from by
              simp [dumpPairs]]
            simp [dumpStr]
            omega
          rw [hsplit, readPairs_key, dumpStr_read]
          show (match dropWs (':' :: ' ' :: (dumpVal v ++ (dumpPairsRest ([] : List (List Char × PyVal)) ++ '}' :: rest))) with
            | ':' :: r2 =>
                (match readVal f r2 with
                | none => none
                | some (v2, r3) =>
                    match dropWs r3 with
                    | ',' :: r4 =>
                        (match readPairs f r4 with
                        | some (ps2, r5) => some ((k, v2) :: ps2, r5)
                        | none => none)
                    | '}' :: r4 => some ([(k, v2)], r4)
                    | _ => none)
            | _ => none) = some ([(k, v)], rest)
          have hvpos := dumpVal_len_pos v
          obtain ⟨f2, rfl⟩ : ∃ f2, f = f2 + 1 := ⟨f - 1, by omega⟩
          rw [show dropWs (':' :: ' ' :: (dumpVal v ++ (dumpPairsRest ([] : List (List Char × PyVal)) ++ '}' :: rest)))
              = ':' :: ' ' :: (dumpVal v ++ (dumpPairsRest ([] : List (List Char × PyVal)) ++ '}' :: rest)) from
            dropWs_cons (by decide) _]
          show (match readVal (f2 + 1) (' ' :: (dumpVal v ++ (dumpPairsRest ([] : List (List Char × PyVal)) ++ '}' :: rest))) with
            | none => none
            | some (v2, r3) =>
                match dropWs r3 with
                | ',' :: r4 =>
                    (match readPairs (f2 + 1) r4 with
                    | some (ps2, r5) => some ((k, v2) :: ps2, r5)
                    | none => none)
                | '}' :: r4 => some ([(k, v2)], r4)
                | _ => none) = some ([(k, v)], rest)
          rw [readVal_ws, rt_val v (f2 + 1) (dumpPairsRest ([] : List (List Char × PyVal)) ++ '}' :: rest) (by omega)
              (noDigHead_pairsRest [] rest)]
          rw [show dumpPairsRest ([] : List (List Char × PyVal)) ++ '}' :: rest
              = '}' :: rest from by simp [dumpPairsRest]]
          rfl
  | k, v, (k2, v2) :: ps2, fuel, rest, hf => by
      cases fuel with
      | zero => exact absurd hf (Nat.not_lt_zero _)
      | succ f =>
          have hsplit : dumpPairs ((k, v) :: (k2, v2) :: ps2) ++ '}' :: rest
              = '"' :: (escList k ++ '"' :: ':' :: ' ' :: (dumpVal v ++ (dumpPairsRest ((k2, v2) :: ps2) ++ '}' :: rest))) := by
            simp [dumpPairs, dumpStr]
          have hklen : (dumpPairs ((k, v) :: (k2, v2) :: ps2)).length
              = (escList k).length + 2 + 2 + ((dumpVal v).length + (dumpPairsRest ((k2, v2) :: ps2)).length) := by
            rw [show dumpPairs ((k, v) :: (k2, v2) :: ps2)
                = dumpStr k ++ ':' :: ' ' :: (dumpVal v ++ dumpPairsRest ((k2, v2) :: ps2)) from by
              simp [dumpPairs]]
            simp [dumpStr]
            omega
          rw [hsplit, readPairs_key, dumpStr_read]
          show (match dropWs (':' :: ' ' :: (dumpVal v ++ (dumpPairsRest ((k2, v2) :: ps2) ++ '}' :: rest))) with
            | ':' :: r2 =>
                (match readVal f r2 with
                | none => none
                | some (v2, r3) =>
                    match dropWs r3 with
                    | ',' :: r4 =>
                        (match readPairs f r4 with
                        | some (ps3, r5) => some ((k, v2) :: ps3, r5)
                        | none => none)
                    | '}' :: r4 => some ([(k, v2)], r4)
                    | _ => none)
            | _ => none) = some ((k, v) :: (k2, v2) :: ps2, rest)
          have hvpos := dumpVal_len_pos v
          have hplen : (dumpPairsRest ((k2, v2) :: ps2)).length
              = (dumpPairs ((k2, v2) :: ps2)).length + 2 := by
            rw [dumpPairsRest_cons]
            simp
          have hppos := dumpPairs_len_pos k2 v2 ps2
          obtain ⟨f2, rfl⟩ : ∃ f2, f = f2 + 1 := ⟨f - 1, by omega⟩
          rw [show dropWs (':' :: ' ' :: (dumpVal v ++ (dumpPairsRest ((k2, v2) :: ps2) ++ '}' :: rest)))
              = ':' :: ' ' :: (dumpVal v ++ (dumpPairsRest ((k2, v2) :: ps2) ++ '}' :: rest)) from
            dropWs_cons (by decide) _]
          show (match readVal (f2 + 1) (' ' :: (dumpVal v ++ (dumpPairsRest ((k2, v2) :: ps2) ++ '}' :: rest))) with
            | none => none
            | some (v2, r3) =>
                match dropWs r3 with
                | ',' :: r4 =>
                    (match readPairs (f2 + 1) r4 with
                    | some (ps3, r5) => some ((k, v2) :: ps3, r5)
                    | none => none)
                | '}' :: r4 => some ([(k, v2)], r4)
                | _ => none) = some ((k, v) :: (k2, v2) :: ps2, rest)
          rw [readVal_ws, rt_val v (f2 + 1) (dumpPairsRest ((k2, v2) :: ps2) ++ '}' :: rest) (by omega)
              (noDigHead_pairsRest ((k2, v2) :: ps2) rest)]
          have hrest2 : dumpPairsRest ((k2, v2) :: ps2) ++ '}' :: rest
              = ',' :: ' ' :: (dumpPairs ((k2, v2) :: ps2) ++ '}' :: rest) := by
            rw [dumpPairsRest_cons]
            simp
          rw [hrest2]
          show (match readPairs (f2 + 1) (' ' :: (dumpPairs ((k2, v2) :: ps2) ++ '}' :: rest)) with
            | some (ps3, r5) => some ((k, v) :: ps3, r5)
            | none => none) = some ((k, v) :: (k2, v2) :: ps2, rest)
          rw [readPairs_ws, rt_pairs k2 v2 ps2 (f2 + 1) rest (by omega)]
termination_by k v ps _ _ _ => 1 + sizeOf v + sizeOf ps
decreasing_by
  all_goals simp_wf
  all_goals try subst_vars
  all_goals try simp only [List.cons.sizeOf_spec, Prod.mk.sizeOf_spec, PyVal.vlist.sizeOf_spec,
    PyVal.vdict.sizeOf_spec]
  all_goals omega
end

/-- The serialize-then-parse round trip of the modelled `json` module is the
identity on Python values. -/
theorem json_loads_dumps (v : PyVal) : json_loads (json_dumps v) = some v := by
  unfold json_loads json_dumps
  have h := rt_val v ((dumpVal v).length + 1) [] (by omega) (by rfl)
  rw [List.append_nil] at h
  rw [h]
  rfl

/-! ## Model of the `ResponseQueue` result store

`ResponseQueue` keeps an in-memory sqlite table
`queue (transaction_id TEXT PRIMARY KEY, route TEXT, payload BLOB,
status TEXT DEFAULT pending)`; sqlite accepts the unquoted default and the
column defaults to the string value `pending`.  The table is modelled as a
list of rows in insertion order. -/

def STATUS_PENDING : List Char := ("pending").toList

def STATUS_READY : List Char := ("ready").toList

def STATUS_COMPLETED : List Char := ("completed").toList

def STATUS_FAILED : List Char := ("failed").toList

/-- A stored column value of the payload column. -/
inductive DbVal where
  | dbText (s : List Char)
  | dbInt (n : Int)
  | dbNull

/-- sqlite3 parameter binding of the Python value `ResponseQueue.put` passes
for the payload column, after `put` has replaced dicts, lists and tuples by
their `json.dumps` serialization: remaining strings bind as TEXT, ints and
bools as INTEGER, None as NULL. -/
def bindPayload : PyVal → DbVal
  | .vdict xs => .dbText (json_dumps (.vdict xs))
  | .vlist xs => .dbText (json_dumps (.vlist xs))
  | .vstr s => .dbText s
  | .vint n => .dbInt n
  | .vbool b => .dbInt (if b then 1 else 0)
  | .vnone => .dbNull

/-- The Python value sqlite3 hands back for a stored column value. -/
def unbind : DbVal → PyVal
  | .dbText s => .vstr s
  | .dbInt n => .vint n
  | .dbNull => .vnone

/-- One row of the `queue` table, columns in declaration order. -/
structure TaskRow where
  transaction_id : List Char
  route : List Char
  payload : DbVal
  status : List Char

/-- Errors sqlite raises into the store's callers. -/
inductive SqlError where
  | integrityUniqueViolation

deriving instance DecidableEq for DbVal

/-- Primary-key lookup. -/
def findRow (db : List TaskRow) (tid : List Char) : Option TaskRow :=
  db.find? (fun r => r.transaction_id == tid)

/-- Model of `ResponseQueue.put`: serialize a dict/list/tuple payload with
`json.dumps`, then INSERT.  A duplicate `transaction_id` violates the
PRIMARY KEY: sqlite raises IntegrityError and the table is unchanged.  The
status column takes its default value `pending`. -/
def ResponseQueue.put (db : List TaskRow) (tid route : List Char) (payload : PyVal) :
    Except SqlError (List TaskRow) :=
  if (findRow db tid).isSome then .error .integrityUniqueViolation
  else .ok (db ++ [⟨tid, route, bindPayload payload, STATUS_PENDING⟩])

/-- Model of `ResponseQueue.update_status`:
`UPDATE queue SET payload = json.dumps(payload), status = ? WHERE
transaction_id = ?`.  The result is serialized unconditionally into the
payload column; an UPDATE matching no row changes nothing and raises
nothing. -/
def ResponseQueue.update_status (db : List TaskRow) (tid status : List Char)
    (payload : PyVal) : List TaskRow :=
  db.map (fun r =>
    if r.transaction_id = tid
    then { r with payload := .dbText (json_dumps payload), status := status }
    else r)

/-- The payload entry of the dict `ResponseQueue.get_task` builds: the raw
column value, replaced by its `json.loads` parse when the column holds text
that parses (a failed parse, or a non-text value that `json.loads` rejects
with TypeError, keeps the raw value). -/
def loadedPayload : DbVal → PyVal
  | .dbText s =>
      match json_loads s with
      | some p => p
      | none => .vstr s
  | .dbInt n => .vint n
  | .dbNull => .vnone

/-- The dict `ResponseQueue.get_task` returns: exactly the three selected
columns, in SELECT order. -/
def rowDict (r : TaskRow) : List (List Char × PyVal) :=
  [(("transaction_id").toList, .vstr r.transaction_id),
   (("payload").toList, loadedPayload r.payload),
   (("status").toList, .vstr r.status)]

/-- Model of `ResponseQueue.get_task`:
`SELECT transaction_id, payload, status FROM queue WHERE transaction_id = ?`,
returning None when no row matches. -/
def ResponseQueue.get_task (db : List TaskRow) (tid : List Char) :
    Option (List (List Char × PyVal)) :=
  match findRow db tid with
  | none => none
  | some r => some (rowDict r)

/-- Model of `ResponseQueue.task_done`: DELETE the row when purging, else
set its status to `completed` (payload untouched).  A missing row is a
silent no-op either way. -/
def ResponseQueue.task_done (db : List TaskRow) (tid : List Char) (purge : Bool) :
    List TaskRow :=
  if purge then db.filter (fun r => !(r.transaction_id == tid))
  else db.map (fun r =>
    if r.transaction_id = tid then { r with status := STATUS_COMPLETED } else r)

/-- The dict a `SELECT *` row turns into: all four columns in table order,
payload raw (`dump` does not run `json.loads`). -/
def dumpRowDict (r : TaskRow) : List (List Char × PyVal) :=
  [(("transaction_id").toList, .vstr r.transaction_id),
   (("route").toList, .vstr r.route),
   (("payload").toList, unbind r.payload),
   (("status").toList, .vstr r.status)]

/-- Model of `ResponseQueue.dump`: every row of the table. -/
def ResponseQueue.dump (db : List TaskRow) : List (List (List Char × PyVal)) :=
  db.map dumpRowDict

/-- Model of `ResponseQueue.qsize`: `SELECT COUNT(*)`. -/
def ResponseQueue.qsize (db : List TaskRow) : Nat := db.length

/-- Python dict lookup `d[key]` on the assoc-list representation. -/
def dictGet (d : List (List Char × PyVal)) (key : List Char) : Option PyVal :=
  match d.find? (fun kv => kv.1 == key) with
  | some kv => some kv.2
  | none => none

/-! ## Model of the `Handler` dispatcher thread -/

/-- Outcome of one isolated handler execution: the pool future either
yields a value or raises, and the dispatcher then records `str(e)`. -/
inductive RunResult where
  | ok (v : PyVal)
  | exn (msg : List Char)

/-- The registry view of `TaskProcessor`: `hasattr`/`getattr` dynamic
dispatch from a route name to a handler method.  Kept abstract so theorems
quantify over the installed handlers; `taskProcessor` is the concrete
registry of `handler/tasks.py`. -/
def Registry : Type := List Char → Option (PyVal → RunResult)

/-- Model of `TaskProcessor` (handler/tasks.py): a single route-named
method `put_task_queue` returning a fixed dict (its sleep only delays the
result).  Dunder attributes of the Python object are not modelled as
routes. -/
def taskProcessor : Registry := fun route =>
  if route = ("put_task_queue").toList then
    some (fun _ => .ok (.vdict
      [(("status").toList, .vstr (("task completed").toList)),
       (("processor").toList, .vstr (("TaskProcessor").toList))]))
  else none

/-- Ghost trace of the dispatcher's observable operations, in program
order: dequeuing a task, inserting its Pending row, starting its isolated
execution, and writing a status. -/
inductive Ev where
  | dequeue (tid : List Char)
  | insert (tid : List Char)
  | exec (tid : List Char)
  | write (tid status : List Char)

/-- Model of `Handler.process_queue_task`: insert the Pending row, resolve
the route (`hasattr`), and either record the unknown-route failure without
any isolated execution, or run the handler in the process pool and record
Ready (success) or Failed (exception).  A store IntegrityError — duplicate
transaction_id — propagates out.  The event list is the ghost trace of the
operations performed, in order. -/
def Handler.process_queue_task (reg : Registry) (db : List TaskRow)
    (task : List Char × List Char × PyVal) :
    Except SqlError (List TaskRow × List Ev) :=
  let (tid, route, payload) := task
  match ResponseQueue.put db tid route payload with
  | .error e => .error e
  | .ok db1 =>
      match reg route with
      | none =>
          .ok (ResponseQueue.update_status db1 tid STATUS_FAILED
              (.vdict [(("error").toList, .vstr (("Unknown route: ").toList ++ route))]),
            [.insert tid, .write tid STATUS_FAILED])
      | some h =>
          match h payload with
          | .ok res =>
              .ok (ResponseQueue.update_status db1 tid STATUS_READY res,
                [.insert tid, .exec tid, .write tid STATUS_READY])
          | .exn msg =>
              .ok (ResponseQueue.update_status db1 tid STATUS_FAILED
                  (.vdict [(("error").toList, .vstr msg)]),
                [.insert tid, .exec tid, .write tid STATUS_FAILED])

/-- Model of `Handler.run` draining the submission queue: each iteration
dequeues one task, fully processes it — blocking on the single pool future
— and only then takes the next item.  Only `queue.Empty` is caught in the
loop, so a store error escapes it. -/
def Handler.run (reg : Registry) :
    List (List Char × List Char × PyVal) → List TaskRow →
    Except SqlError (List TaskRow × List Ev)
  | [], db => .ok (db, [])
  | t :: ts, db =>
      match Handler.process_queue_task reg db t with
      | .error e => .error e
      | .ok (db1, evs) =>
          match Handler.run reg ts db1 with
          | .error e => .error e
          | .ok (db2, evs2) => .ok (db2, (Ev.dequeue t.1 :: evs) ++ evs2)

/-! ## Model of the HTTP glue (`apiroutes/__init__.py`) -/

/-- State shared between the HTTP layer and the handler thread: the
in-memory submission queue (`HandlerQueue`) and the result store table. -/
structure EngineState where
  iqueue : List (List Char × List Char × PyVal)
  store : List TaskRow

/-- Model of `Handler.put_task_queue` (the body of the `enqueue_task`
endpoint): enqueue the triple under a fresh transaction id — uuid4 is an
external id source, passed in — and return the id at once.  Nothing is
written to the result store here. -/
def Handler.put_task_queue (st : EngineState) (tid route : List Char) (payload : PyVal) :
    EngineState × List Char :=
  ({ st with iqueue := st.iqueue ++ [(tid, route, payload)] }, tid)

/-- Wire-level outcome of the `task_queue_status` endpoint. -/
inductive StatusResponse where
  | notFound
  | accepted (tid : List Char)
  | ok (task : List (List Char × PyVal))

/-- The part of the `task_queue_status` endpoint that runs once a task dict
was fetched: 202 while the fetched status is `pending`; when it is `ready`,
acknowledge the task (`set_task_done`, no purge) after the fetch — the
response still carries the fetched dict with `ready`; otherwise just return
the dict. -/
def statusRespond (st : EngineState) (tid : List Char)
    (task : List (List Char × PyVal)) : StatusResponse × EngineState :=
  match dictGet task (("status").toList) with
  | some (.vstr s) =>
      if s = STATUS_PENDING then (.accepted tid, st)
      else if s = STATUS_READY then
        (.ok task, { st with store := ResponseQueue.task_done st.store tid false })
      else (.ok task, st)
  | _ => (.ok task, st)

/-- Model of the `task_queue_status` endpoint: 404 when the id is unknown,
else respond from the fetched dict. -/
def task_queue_status (st : EngineState) (tid : List Char) :
    StatusResponse × EngineState :=
  match ResponseQueue.get_task st.store tid with
  | none => (.notFound, st)
  | some task => statusRespond st tid task

/-! ## Store lemmas -/

theorem findRow_cons (r : TaskRow) (db : List TaskRow) (tid : List Char) :
    findRow (r :: db) tid = if r.transaction_id = tid then some r else findRow db tid := by
  by_cases h : r.transaction_id = tid
  · simp [findRow, h]
  · simp [findRow, h]

theorem findRow_append_of_none {db : List TaskRow} {tid : List Char}
    (h : findRow db tid = none) (db2 : List TaskRow) :
    findRow (db ++ db2) tid = findRow db2 tid := by
  induction db with
  | nil => rfl
  | cons r db ih =>
      rw [findRow_cons] at h
      by_cases hr : r.transaction_id = tid
      · rw [if_pos hr] at h; cases h
      · rw [if_neg hr] at h
        rw [List.cons_append, findRow_cons, if_neg hr]
        exact ih h

theorem findRow_self_append (db : List TaskRow) (tid route : List Char) (p : DbVal)
    (s : List Char) (h : findRow db tid = none) :
    findRow (db ++ [⟨tid, route, p, s⟩]) tid = some ⟨tid, route, p, s⟩ := by
  rw [findRow_append_of_none h, findRow_cons]
  exact if_pos rfl

theorem findRow_update_status_self (db : List TaskRow) (tid st : List Char) (p : PyVal) :
    findRow (ResponseQueue.update_status db tid st p) tid
      = (findRow db tid).map
          (fun r => { r with payload := .dbText (json_dumps p), status := st }) := by
  induction db with
  | nil => rfl
  | cons r db ih =>
      show findRow ((if r.transaction_id = tid
          then { r with payload := .dbText (json_dumps p), status := st } else r)
        :: ResponseQueue.update_status db tid st p) tid = _
      by_cases h : r.transaction_id = tid
      · rw [if_pos h, findRow_cons, findRow_cons, if_pos h, if_pos h]
        rfl
      · rw [if_neg h, findRow_cons, findRow_cons, if_neg h, if_neg h]
        exact ih

theorem findRow_update_status_ne (db : List TaskRow) (tid tid' st : List Char) (p : PyVal)
    (hne : tid' ≠ tid) :
    findRow (ResponseQueue.update_status db tid st p) tid' = findRow db tid' := by
  induction db with
  | nil => rfl
  | cons r db ih =>
      show findRow ((if r.transaction_id = tid
          then { r with payload := .dbText (json_dumps p), status := st } else r)
        :: ResponseQueue.update_status db tid st p) tid' = _
      by_cases h : r.transaction_id = tid
      · rw [if_pos h, findRow_cons, findRow_cons]
        have : ¬ r.transaction_id = tid' := by rw [h]; exact fun hx => hne hx.symm
        rw [if_neg this, if_neg (by exact this)]
        exact ih
      · rw [if_neg h, findRow_cons, findRow_cons]
        by_cases h2 : r.transaction_id = tid'
        · rw [if_pos h2, if_pos h2]
        · rw [if_neg h2, if_neg h2]
          exact ih

theorem findRow_task_done_self (db : List TaskRow) (tid : List Char) :
    findRow (ResponseQueue.task_done db tid false) tid
      = (findRow db tid).map (fun r => { r with status := STATUS_COMPLETED }) := by
  show findRow (db.map _) tid = _
  induction db with
  | nil => rfl
  | cons r db ih =>
      show findRow ((if r.transaction_id = tid
          then { r with status := STATUS_COMPLETED } else r) :: _) tid = _
      by_cases h : r.transaction_id = tid
      · rw [if_pos h, findRow_cons, findRow_cons, if_pos h, if_pos h]
        rfl
      · rw [if_neg h, findRow_cons, findRow_cons, if_neg h, if_neg h]
        exact ih

theorem findRow_eq_none_iff (db : List TaskRow) (tid : List Char) :
    findRow db tid = none ↔ ∀ r ∈ db, r.transaction_id ≠ tid := by
  simp [findRow, List.find?_eq_none]

theorem tids_update_status (db : List TaskRow) (tid st : List Char) (p : PyVal) :
    (ResponseQueue.update_status db tid st p).map (fun r => r.transaction_id)
      = db.map (fun r => r.transaction_id) := by
  induction db with
  | nil => rfl
  | cons r db ih =>
      show (if r.transaction_id = tid
          then { r with payload := DbVal.dbText (json_dumps p), status := st } else r).transaction_id
        :: (ResponseQueue.update_status db tid st p).map (fun r => r.transaction_id) = _
      by_cases h : r.transaction_id = tid
      · rw [if_pos h, ih]; rfl
      · rw [if_neg h, ih]; rfl

theorem dictGet_rowDict_status (r : TaskRow) :
    dictGet (rowDict r) (("status").toList) = some (.vstr r.status) := by rfl

theorem dictGet_rowDict_payload (r : TaskRow) :
    dictGet (rowDict r) (("payload").toList) = some (loadedPayload r.payload) := by rfl

/-! ## Substring utilities (for the unknown-route message claims) -/

/-- Whether the first list starts the second (Boolean, character-exact). -/
def startsWithL (neck : List Char) (hay : List Char) : Bool :=
  match neck, hay with
  | [], _ => true
  | a :: n2, b :: h2 => a == b && startsWithL n2 h2
  | _ :: _, [] => false

/-- Whether `needle` occurs contiguously anywhere in the second list
(case-sensitive, like Python's `in` on strings). -/
def containsL (needle : List Char) : List Char → Bool
  | [] => startsWithL needle []
  | c :: t => startsWithL needle (c :: t) || containsL needle t

/-! ## Claim C2 -/

/-- C2: `ResponseQueue.put` on a fresh transaction_id appends exactly one
record, whose status is `pending`; on an already-present transaction_id it
raises the duplicate-key IntegrityError, leaving the table unchanged (the
error return carries no new table). -/
theorem C2_put_insert (db : List TaskRow) (tid route : List Char) (payload : PyVal) :
    (findRow db tid = none →
      ResponseQueue.put db tid route payload
        = .ok (db ++ [(⟨tid, route, bindPayload payload, STATUS_PENDING⟩ : TaskRow)]) ∧
      (db ++ [(⟨tid, route, bindPayload payload, STATUS_PENDING⟩ : TaskRow)]).filter
          (fun r => r.transaction_id == tid)
        = [(⟨tid, route, bindPayload payload, STATUS_PENDING⟩ : TaskRow)]) ∧
    (findRow db tid ≠ none →
      ResponseQueue.put db tid route payload = .error .integrityUniqueViolation) := by
  constructor
  · intro h
    constructor
    · unfold ResponseQueue.put
      rw [h]
      rfl
    · rw [List.filter_append]
      have hnil : db.filter (fun r => r.transaction_id == tid) = [] := by
        rw [List.filter_eq_nil_iff]
        intro r hr
        have := (findRow_eq_none_iff db tid).mp h r hr
        simp [this]
      rw [hnil]
      simp
  · intro h
    unfold ResponseQueue.put
    match hf : findRow db tid with
    | none => exact absurd hf h
    | some r => rfl

/-- Witness for C2 at concrete inputs: a fresh insert into the empty table,
and a duplicate insert into the resulting table. -/
theorem C2_put_insert_witness :
    (ResponseQueue.put [] (("t1").toList) (("r1").toList) (.vdict [])
        = .ok [(⟨("t1").toList, ("r1").toList,
            .dbText (json_dumps (.vdict [])), STATUS_PENDING⟩ : TaskRow)] ∧
      ([] ++ [(⟨("t1").toList, ("r1").toList,
            bindPayload (.vdict []), STATUS_PENDING⟩ : TaskRow)]).filter
          (fun r => r.transaction_id == ("t1").toList)
        = [(⟨("t1").toList, ("r1").toList, bindPayload (.vdict []), STATUS_PENDING⟩ : TaskRow)]) ∧
    ResponseQueue.put [(⟨("t1").toList, ("r1").toList,
        bindPayload (.vdict []), STATUS_PENDING⟩ : TaskRow)]
        (("t1").toList) (("r2").toList) (.vint 5)
      = .error .integrityUniqueViolation := by
  refine ⟨⟨?_, ?_⟩, ?_⟩
  · exact ((C2_put_insert [] (("t1").toList) (("r1").toList) (.vdict [])).1 rfl).1
  · exact ((C2_put_insert [] (("t1").toList) (("r1").toList) (.vdict [])).1 rfl).2
  · exact (C2_put_insert [(⟨("t1").toList, ("r1").toList,
        bindPayload (.vdict []), STATUS_PENDING⟩ : TaskRow)]
        (("t1").toList) (("r2").toList) (.vint 5)).2 (by simp [findRow])

/-! ## Claim C3 -/

/-- C3 counterexample: `update_status` called with a transaction_id for
which no record exists does not fail — the UPDATE statement matches zero
rows, raises nothing, and the operation completes with the table unchanged
(here: the empty table).  In the embedding `update_status` is a total
function into tables with no error outcome, mirroring the code, so the
claimed `NotFound` failure does not exist. -/
theorem C3_counterexample :
    ResponseQueue.update_status [] (("missing").toList) STATUS_FAILED (.vdict []) = [] := rfl

/-- C3 amended: `update_status` on an unknown transaction_id silently
leaves the store unchanged; on an existing record it overwrites the status
and writes the serialized result into the record's payload column. -/
theorem C3_update_status (db : List TaskRow) (tid status : List Char) (p : PyVal) :
    (findRow db tid = none → ResponseQueue.update_status db tid status p = db) ∧
    (∀ r, findRow db tid = some r →
      findRow (ResponseQueue.update_status db tid status p) tid
        = some { r with payload := .dbText (json_dumps p), status := status }) := by
  constructor
  · intro h
    have hall := (findRow_eq_none_iff db tid).mp h
    unfold ResponseQueue.update_status
    have : ∀ r ∈ db, (if r.transaction_id = tid
        then { r with payload := DbVal.dbText (json_dumps p), status := status } else r) = r := by
      intro r hr
      rw [if_neg (hall r hr)]
    calc db.map _ = db.map id := List.map_congr_left this
    _ = db := List.map_id db
  · intro r hr
    rw [findRow_update_status_self, hr]
    rfl

/-- Witness for C3's amended statement at concrete inputs: the no-op branch
on a store without the id, and the overwrite branch on a store with it. -/
theorem C3_update_status_witness :
    (ResponseQueue.update_status [(⟨("a1").toList, ("r1").toList, .dbNull,
        STATUS_PENDING⟩ : TaskRow)] (("zz").toList) STATUS_READY (.vint 1)
      = [(⟨("a1").toList, ("r1").toList, .dbNull, STATUS_PENDING⟩ : TaskRow)]) ∧
    findRow (ResponseQueue.update_status [(⟨("a1").toList, ("r1").toList, .dbNull,
        STATUS_PENDING⟩ : TaskRow)] (("a1").toList) STATUS_READY (.vint 1)) (("a1").toList)
      = some ⟨("a1").toList, ("r1").toList, .dbText (json_dumps (.vint 1)), STATUS_READY⟩ := by
  constructor
  · exact (C3_update_status [(⟨("a1").toList, ("r1").toList, .dbNull,
      STATUS_PENDING⟩ : TaskRow)] (("zz").toList) STATUS_READY (.vint 1)).1 rfl
  · exact (C3_update_status [(⟨("a1").toList, ("r1").toList, .dbNull,
      STATUS_PENDING⟩ : TaskRow)] (("a1").toList) STATUS_READY (.vint 1)).2 _ rfl

/-! ## Claim C4 -/

/-- C4 counterexample: the stored input payload is not immutable and is not
kept distinct from the result.  A record inserted with payload
`{"x": 1}` and then updated by the dispatcher with result `{"y": 2}` has
its single payload column overwritten with the serialized result, which
differs from the serialized input. -/
theorem C4_counterexample :
    ResponseQueue.update_status
        [(⟨("t1").toList, ("r1").toList,
          bindPayload (.vdict [(("x").toList, .vint 1)]), STATUS_PENDING⟩ : TaskRow)]
        (("t1").toList) STATUS_READY (.vdict [(("y").toList, .vint 2)])
      = [(⟨("t1").toList, ("r1").toList,
          .dbText (json_dumps (.vdict [(("y").toList, .vint 2)])), STATUS_READY⟩ : TaskRow)] ∧
    DbVal.dbText (json_dumps (.vdict [(("y").toList, .vint 2)]))
      ≠ bindPayload (.vdict [(("x").toList, .vint 1)]) := by
  exact ⟨rfl, by decide⟩

/-- C4 amended: the table has a single payload column and no separate
result field; the dispatcher's status update overwrites that column with
the serialized result (or error description), so the input payload is not
retained past the update — while records under any other transaction_id
keep their payload and status unchanged. -/
theorem C4_payload_overwrite (db : List TaskRow) (tid status : List Char) (p : PyVal) :
    (∀ r, findRow db tid = some r →
      findRow (ResponseQueue.update_status db tid status p) tid
        = some { r with payload := .dbText (json_dumps p), status := status }) ∧
    (∀ tid', tid' ≠ tid →
      findRow (ResponseQueue.update_status db tid status p) tid' = findRow db tid') := by
  constructor
  · intro r hr
    rw [findRow_update_status_self, hr]
    rfl
  · intro tid' hne
    exact findRow_update_status_ne db tid tid' status p hne

/-- Witness for C4's amended statement: the overwrite on the updated record
and the frame on a second record. -/
theorem C4_payload_overwrite_witness :
    findRow (ResponseQueue.update_status
        [(⟨("t1").toList, ("r1").toList, .dbNull, STATUS_PENDING⟩ : TaskRow),
         (⟨("t2").toList, ("r2").toList, .dbInt 7, STATUS_PENDING⟩ : TaskRow)]
        (("t1").toList) STATUS_FAILED (.vnone)) (("t1").toList)
      = some ⟨("t1").toList, ("r1").toList, .dbText (json_dumps .vnone), STATUS_FAILED⟩ ∧
    findRow (ResponseQueue.update_status
        [(⟨("t1").toList, ("r1").toList, .dbNull, STATUS_PENDING⟩ : TaskRow),
         (⟨("t2").toList, ("r2").toList, .dbInt 7, STATUS_PENDING⟩ : TaskRow)]
        (("t1").toList) STATUS_FAILED (.vnone)) (("t2").toList)
      = some ⟨("t2").toList, ("r2").toList, .dbInt 7, STATUS_PENDING⟩ := by
  constructor
  · exact (C4_payload_overwrite
      [(⟨("t1").toList, ("r1").toList, .dbNull, STATUS_PENDING⟩ : TaskRow),
       (⟨("t2").toList, ("r2").toList, .dbInt 7, STATUS_PENDING⟩ : TaskRow)]
      (("t1").toList) STATUS_FAILED (.vnone)).1 _ rfl
  · exact ((C4_payload_overwrite
      [(⟨("t1").toList, ("r1").toList, .dbNull, STATUS_PENDING⟩ : TaskRow),
       (⟨("t2").toList, ("r2").toList, .dbInt 7, STATUS_PENDING⟩ : TaskRow)]
      (("t1").toList) STATUS_FAILED (.vnone)).2 (("t2").toList) (by decide)).trans rfl

/-! ## Claim C9 -/

/-- C9: `get_task` returns a mapping with exactly the keys
`transaction_id`, `payload`, `status` — never `route` — while `dump`
returns every column including `route`. -/
theorem C9_projection (db : List TaskRow) (tid : List Char) :
    (∀ task, ResponseQueue.get_task db tid = some task →
      task.map (fun kv => kv.1)
        = [("transaction_id").toList, ("payload").toList, ("status").toList] ∧
      ¬ (("route").toList ∈ task.map (fun kv => kv.1))) ∧
    (∀ row ∈ ResponseQueue.dump db,
      row.map (fun kv => kv.1)
        = [("transaction_id").toList, ("route").toList,
           ("payload").toList, ("status").toList]) := by
  constructor
  · intro task htask
    unfold ResponseQueue.get_task at htask
    match hf : findRow db tid with
    | none => rw [hf] at htask; cases htask
    | some r =>
        rw [hf] at htask
        cases htask
        refine ⟨rfl, ?_⟩
        rw [show (rowDict r).map (fun kv => kv.1)
            = [("transaction_id").toList, ("payload").toList, ("status").toList] from rfl]
        decide
  · intro row hrow
    unfold ResponseQueue.dump at hrow
    obtain ⟨r, -, rfl⟩ := List.mem_map.mp hrow
    rfl

/-- Witness for C9 at a concrete one-row store. -/
theorem C9_projection_witness :
    ((rowDict (⟨("t1").toList, ("r1").toList, .dbNull, STATUS_PENDING⟩ : TaskRow)).map
        (fun kv => kv.1)
      = [("transaction_id").toList, ("payload").toList, ("status").toList] ∧
     ¬ (("route").toList ∈ (rowDict (⟨("t1").toList, ("r1").toList, .dbNull,
        STATUS_PENDING⟩ : TaskRow)).map (fun kv => kv.1))) ∧
    (dumpRowDict (⟨("t1").toList, ("r1").toList, .dbNull, STATUS_PENDING⟩ : TaskRow)).map
        (fun kv => kv.1)
      = [("transaction_id").toList, ("route").toList,
         ("payload").toList, ("status").toList] := by
  constructor
  · exact (C9_projection [(⟨("t1").toList, ("r1").toList, .dbNull,
      STATUS_PENDING⟩ : TaskRow)] (("t1").toList)).1 _ rfl
  · exact (C9_projection [(⟨("t1").toList, ("r1").toList, .dbNull,
      STATUS_PENDING⟩ : TaskRow)] (("t1").toList)).2 _ (List.mem_singleton.mpr rfl)

/-! ## Claim C10 -/

/-- C10: for a payload that is a map or a sequence, inserting with `put`
and reading back with `get_task` before any update returns a payload
structurally equal to the one inserted: `put` stores
`json.dumps payload` and `get_task` applies `json.loads`, and that
round trip is the identity (`json_loads_dumps`). -/
theorem C10_roundtrip (db : List TaskRow) (tid route : List Char) (payload : PyVal)
    (hfresh : findRow db tid = none)
    (hstruct : (∃ xs, payload = PyVal.vdict xs) ∨ (∃ xs, payload = PyVal.vlist xs)) :
    ∃ db', ResponseQueue.put db tid route payload = .ok db' ∧
      ∃ task, ResponseQueue.get_task db' tid = some task ∧
        dictGet task (("payload").toList) = some payload := by
  refine ⟨db ++ [(⟨tid, route, bindPayload payload, STATUS_PENDING⟩ : TaskRow)], ?_, ?_⟩
  · unfold ResponseQueue.put
    rw [hfresh]
    rfl
  · refine ⟨rowDict ⟨tid, route, bindPayload payload, STATUS_PENDING⟩, ?_, ?_⟩
    · unfold ResponseQueue.get_task
      rw [findRow_self_append db tid route _ _ hfresh]
    · rw [dictGet_rowDict_payload]
      have : loadedPayload (bindPayload payload) = payload := by
        rcases hstruct with ⟨xs, rfl⟩ | ⟨xs, rfl⟩
        · show (match json_loads (json_dumps (PyVal.vdict xs)) with
              | some p => p
              | none => PyVal.vstr (json_dumps (PyVal.vdict xs))) = PyVal.vdict xs
          rw [json_loads_dumps]
        · show (match json_loads (json_dumps (PyVal.vlist xs)) with
              | some p => p
              | none => PyVal.vstr (json_dumps (PyVal.vlist xs))) = PyVal.vlist xs
          rw [json_loads_dumps]
      rw [this]

/-- Witness for C10: a nested concrete payload round-trips through the
store. -/
theorem C10_roundtrip_witness :
    findRow [] (("t1").toList) = none ∧
    (∃ db', ResponseQueue.put [] (("t1").toList) (("echo").toList)
        (.vdict [(("a").toList, .vint 1),
          (("b").toList, .vlist [.vint (-2), .vstr (("x \n").toList), .vnone, .vbool true])])
        = .ok db' ∧
      ∃ task, ResponseQueue.get_task db' (("t1").toList) = some task ∧
        dictGet task (("payload").toList)
          = some (.vdict [(("a").toList, .vint 1),
            (("b").toList, .vlist [.vint (-2), .vstr (("x \n").toList), .vnone, .vbool true])])) :=
  ⟨rfl, C10_roundtrip [] (("t1").toList) (("echo").toList)
    (.vdict [(("a").toList, .vint 1),
      (("b").toList, .vlist [.vint (-2), .vstr (("x \n").toList), .vnone, .vbool true])])
    rfl (Or.inl ⟨_, rfl⟩)⟩

/-! ## Claim C5 -/

/-- C5: the first `status` call that observes a `ready` record returns its
dict (still carrying `ready`) and, as a side effect, completes the record
without touching its payload; a second call returns the same dict except
for status `completed`, with the same result payload, and changes nothing
further. -/
theorem task_queue_status_found (st : EngineState) (tid : List Char) (r : TaskRow)
    (hr : findRow st.store tid = some r) :
    task_queue_status st tid = statusRespond st tid (rowDict r) := by
  unfold task_queue_status ResponseQueue.get_task
  rw [hr]

theorem C5_ack_law (st : EngineState) (tid : List Char) (r : TaskRow)
    (hr : findRow st.store tid = some r) (hready : r.status = STATUS_READY) :
    ∃ st1,
      task_queue_status st tid = (.ok (rowDict r), st1) ∧
      task_queue_status st1 tid
        = (.ok (rowDict { r with status := STATUS_COMPLETED }), st1) ∧
      dictGet (rowDict { r with status := STATUS_COMPLETED }) (("payload").toList)
        = dictGet (rowDict r) (("payload").toList) := by
  refine ⟨{ st with store := ResponseQueue.task_done st.store tid false }, ?_, ?_, rfl⟩
  · rw [task_queue_status_found st tid r hr]
    unfold statusRespond
    rw [dictGet_rowDict_status, hready]
    show (if STATUS_READY = STATUS_PENDING then (StatusResponse.accepted tid, st)
      else if STATUS_READY = STATUS_READY then
        (StatusResponse.ok (rowDict r),
          { st with store := ResponseQueue.task_done st.store tid false })
      else (StatusResponse.ok (rowDict r), st)) = _
    rw [if_neg (by decide), if_pos rfl]
  · have hr1 : findRow ({ st with
        store := ResponseQueue.task_done st.store tid false } : EngineState).store tid
        = some { r with status := STATUS_COMPLETED } := by
      show findRow (ResponseQueue.task_done st.store tid false) tid = _
      rw [findRow_task_done_self, hr]
      rfl
    rw [task_queue_status_found _ tid _ hr1]
    unfold statusRespond
    rw [dictGet_rowDict_status]
    show (if STATUS_COMPLETED = STATUS_PENDING then (StatusResponse.accepted tid,
        ({ st with store := ResponseQueue.task_done st.store tid false } : EngineState))
      else if STATUS_COMPLETED = STATUS_READY then
        (StatusResponse.ok (rowDict { r with status := STATUS_COMPLETED }),
          { ({ st with store := ResponseQueue.task_done st.store tid false } : EngineState) with
            store := ResponseQueue.task_done
              ({ st with store := ResponseQueue.task_done st.store tid false } : EngineState).store
              tid false })
      else (StatusResponse.ok (rowDict { r with status := STATUS_COMPLETED }),
        ({ st with store := ResponseQueue.task_done st.store tid false } : EngineState))) = _
    rw [if_neg (by decide), if_neg (by decide)]

/-- Witness for C5 at a concrete one-row ready store. -/
theorem C5_ack_law_witness :
    findRow [(⟨("t1").toList, ("r1").toList, .dbText (json_dumps (.vint 3)),
        STATUS_READY⟩ : TaskRow)] (("t1").toList)
      = some ⟨("t1").toList, ("r1").toList, .dbText (json_dumps (.vint 3)), STATUS_READY⟩ ∧
    (∃ st1,
      task_queue_status ⟨[], [(⟨("t1").toList, ("r1").toList,
          .dbText (json_dumps (.vint 3)), STATUS_READY⟩ : TaskRow)]⟩ (("t1").toList)
        = (.ok (rowDict ⟨("t1").toList, ("r1").toList,
            .dbText (json_dumps (.vint 3)), STATUS_READY⟩), st1) ∧
      task_queue_status st1 (("t1").toList)
        = (.ok (rowDict ⟨("t1").toList, ("r1").toList,
            .dbText (json_dumps (.vint 3)), STATUS_COMPLETED⟩), st1) ∧
      dictGet (rowDict ⟨("t1").toList, ("r1").toList,
          .dbText (json_dumps (.vint 3)), STATUS_COMPLETED⟩) (("payload").toList)
        = dictGet (rowDict ⟨("t1").toList, ("r1").toList,
            .dbText (json_dumps (.vint 3)), STATUS_READY⟩) (("payload").toList)) :=
  ⟨rfl, C5_ack_law ⟨[], [(⟨("t1").toList, ("r1").toList,
      .dbText (json_dumps (.vint 3)), STATUS_READY⟩ : TaskRow)]⟩
    (("t1").toList) ⟨("t1").toList, ("r1").toList,
      .dbText (json_dumps (.vint 3)), STATUS_READY⟩ rfl rfl⟩

/-! ## Claim C1 -/

/-- Responses built from a fetched task dict are 202 or 200, never 404. -/
theorem statusRespond_ne_notFound (st : EngineState) (tid : List Char)
    (task : List (List Char × PyVal)) :
    (statusRespond st tid task).1 ≠ StatusResponse.notFound := by
  unfold statusRespond
  split
  · split_ifs
    · intro hc; simp at hc
    · intro hc; simp at hc
    · intro hc; simp at hc
  · intro hc; simp at hc

/-- C1 counterexample: a status lookup performed immediately after `submit`
— before the dispatcher thread has dequeued the task, a legal interleaving
because `put_task_queue` only enqueues and writes nothing to the Result
Store — returns 404/NotFound for the freshly issued transaction_id. -/
theorem C1_counterexample :
    (task_queue_status
        (Handler.put_task_queue ⟨[], []⟩ (("t1").toList)
          (("put_task_queue").toList) (.vdict [])).1
        (("t1").toList)).1
      = StatusResponse.notFound := rfl

/-- C1 amended: once the dispatcher has dequeued the task and
`process_queue_task` has completed, the record is visible: a status lookup
never returns NotFound, and the record's status is Pending or terminal. -/
theorem C1_visibility (reg : Registry) (db : List TaskRow)
    (q : List (List Char × List Char × PyVal)) (tid route : List Char) (payload : PyVal)
    (db' : List TaskRow) (evs : List Ev)
    (h : Handler.process_queue_task reg db (tid, route, payload) = .ok (db', evs)) :
    (task_queue_status ⟨q, db'⟩ tid).1 ≠ StatusResponse.notFound ∧
    ∃ r, findRow db' tid = some r ∧
      (r.status = STATUS_PENDING ∨ r.status = STATUS_READY ∨
       r.status = STATUS_FAILED ∨ r.status = STATUS_COMPLETED) := by
  have hrec : ∃ r, findRow db' tid = some r ∧
      (r.status = STATUS_PENDING ∨ r.status = STATUS_READY ∨
       r.status = STATUS_FAILED ∨ r.status = STATUS_COMPLETED) := by
    simp only [Handler.process_queue_task, ResponseQueue.put] at h
    by_cases hfound : (findRow db tid).isSome
    · rw [if_pos hfound] at h
      simp at h
    · rw [if_neg hfound] at h
      have hfresh : findRow db tid = none := by
        cases hcase : findRow db tid with
        | none => rfl
        | some r => rw [hcase] at hfound; exact absurd rfl hfound
      have hbase := findRow_self_append db tid route (bindPayload payload)
        STATUS_PENDING hfresh
      match hroute : reg route with
      | none =>
          simp only [hroute] at h
          cases h
          refine ⟨⟨tid, route, .dbText (json_dumps (.vdict [(("error").toList,
            .vstr (("Unknown route: ").toList ++ route))])), STATUS_FAILED⟩, ?_,
            Or.inr (Or.inr (Or.inl rfl))⟩
          rw [findRow_update_status_self, hbase]
          rfl
      | some hd =>
          simp only [hroute] at h
          match hrun : hd payload with
          | .ok v =>
              simp only [hrun] at h
              cases h
              refine ⟨⟨tid, route, .dbText (json_dumps v), STATUS_READY⟩, ?_,
                Or.inr (Or.inl rfl)⟩
              rw [findRow_update_status_self, hbase]
              rfl
          | .exn msg =>
              simp only [hrun] at h
              cases h
              refine ⟨⟨tid, route, .dbText (json_dumps (.vdict [(("error").toList,
                .vstr msg)])), STATUS_FAILED⟩, ?_, Or.inr (Or.inr (Or.inl rfl))⟩
              rw [findRow_update_status_self, hbase]
              rfl
  refine ⟨?_, hrec⟩
  obtain ⟨r, hr, -⟩ := hrec
  rw [task_queue_status_found ⟨q, db'⟩ tid r (by exact hr)]
  exact statusRespond_ne_notFound ⟨q, db'⟩ tid (rowDict r)

/-- Witness for C1's amended statement: the processed unknown-route task is
visible with a terminal status. -/
theorem C1_visibility_witness :
    Handler.process_queue_task taskProcessor []
        ((("t1").toList, ("nope").toList, PyVal.vdict []))
      = .ok ([(⟨("t1").toList, ("nope").toList,
          .dbText (json_dumps (.vdict [(("error").toList,
            .vstr (("Unknown route: nope").toList))])), STATUS_FAILED⟩ : TaskRow)],
        [Ev.insert (("t1").toList), Ev.write (("t1").toList) STATUS_FAILED]) ∧
    ((task_queue_status ⟨[], [(⟨("t1").toList, ("nope").toList,
          .dbText (json_dumps (.vdict [(("error").toList,
            .vstr (("Unknown route: nope").toList))])), STATUS_FAILED⟩ : TaskRow)]⟩
        (("t1").toList)).1 ≠ StatusResponse.notFound ∧
      ∃ r, findRow [(⟨("t1").toList, ("nope").toList,
          .dbText (json_dumps (.vdict [(("error").toList,
            .vstr (("Unknown route: nope").toList))])), STATUS_FAILED⟩ : TaskRow)]
          (("t1").toList) = some r ∧
        (r.status = STATUS_PENDING ∨ r.status = STATUS_READY ∨
         r.status = STATUS_FAILED ∨ r.status = STATUS_COMPLETED)) :=
  ⟨rfl, C1_visibility taskProcessor [] [] (("t1").toList) (("nope").toList)
    (.vdict []) _ _ rfl⟩

/-! ## Claim C6 -/

/-- C6 counterexample: the unknown-route error text produced by the
dispatcher is `Unknown route: nope` (capital U), and the exact phrase
`unknown route` — as the claim states it — is not contained in it under
the case-sensitive containment that string containment denotes. -/
theorem C6_counterexample :
    Handler.process_queue_task taskProcessor []
        ((("t1").toList, ("nope").toList, PyVal.vdict []))
      = .ok ([(⟨("t1").toList, ("nope").toList,
          .dbText (json_dumps (.vdict [(("error").toList,
            .vstr (("Unknown route: nope").toList))])), STATUS_FAILED⟩ : TaskRow)],
        [Ev.insert (("t1").toList), Ev.write (("t1").toList) STATUS_FAILED]) ∧
    containsL (("unknown route").toList) (("Unknown route: nope").toList) = false :=
  ⟨rfl, rfl⟩

/-- C6 amended: for a dequeued task whose route has no handler, the
dispatcher records status `failed` with result
`{"error": "Unknown route: <route>"}` — whose text contains
`Unknown route` (with a capital U; the lower-case phrase of the original
claim only occurs case-insensitively) — attempts no isolated execution,
and the loop continues with the next queue item. -/
theorem C6_unknown_route (reg : Registry) (db : List TaskRow) (tid route : List Char)
    (payload : PyVal) (hfresh : findRow db tid = none) (hroute : reg route = none) :
    ∃ db',
      Handler.process_queue_task reg db (tid, route, payload)
        = .ok (db', [Ev.insert tid, Ev.write tid STATUS_FAILED]) ∧
      findRow db' tid = some ⟨tid, route,
        .dbText (json_dumps (.vdict [(("error").toList,
          .vstr (("Unknown route: ").toList ++ route))])), STATUS_FAILED⟩ ∧
      containsL (("Unknown route").toList) (("Unknown route: ").toList ++ route) = true ∧
      (∀ t, ¬ Ev.exec t ∈ [Ev.insert tid, Ev.write tid STATUS_FAILED]) ∧
      (∀ ts, Handler.run reg ((tid, route, payload) :: ts) db
        = match Handler.run reg ts db' with
          | Except.error e => Except.error e
          | Except.ok (db2, evs2) =>
              Except.ok (db2, (Ev.dequeue tid
                :: [Ev.insert tid, Ev.write tid STATUS_FAILED]) ++ evs2)) := by
  have hput : ResponseQueue.put db tid route payload
      = .ok (db ++ [(⟨tid, route, bindPayload payload, STATUS_PENDING⟩ : TaskRow)]) := by
    unfold ResponseQueue.put
    rw [hfresh]
    rfl
  have hproc : Handler.process_queue_task reg db (tid, route, payload)
      = .ok (ResponseQueue.update_status
          (db ++ [(⟨tid, route, bindPayload payload, STATUS_PENDING⟩ : TaskRow)])
          tid STATUS_FAILED
          (.vdict [(("error").toList, .vstr (("Unknown route: ").toList ++ route))]),
        [Ev.insert tid, Ev.write tid STATUS_FAILED]) := by
    simp only [Handler.process_queue_task, hput, hroute]
  refine ⟨_, hproc, ?_, ?_, ?_, ?_⟩
  · rw [findRow_update_status_self,
      findRow_self_append db tid route (bindPayload payload) STATUS_PENDING hfresh]
    rfl
  · rfl
  · intro t hmem
    simp at hmem
  · intro ts
    show (match Handler.process_queue_task reg db (tid, route, payload) with
      | Except.error e => Except.error e
      | Except.ok (db1, evs) =>
          match Handler.run reg ts db1 with
          | Except.error e => Except.error e
          | Except.ok (db2, evs2) => Except.ok (db2, (Ev.dequeue tid :: evs) ++ evs2)) = _
    rw [hproc]

/-- Witness for C6's amended statement at the concrete route `nope`. -/
theorem C6_unknown_route_witness :
    findRow [] (("t1").toList) = none ∧ taskProcessor (("nope").toList) = none ∧
    (∃ db',
      Handler.process_queue_task taskProcessor []
          ((("t1").toList, ("nope").toList, PyVal.vdict []))
        = .ok (db', [Ev.insert (("t1").toList), Ev.write (("t1").toList) STATUS_FAILED]) ∧
      findRow db' (("t1").toList) = some ⟨("t1").toList, ("nope").toList,
        .dbText (json_dumps (.vdict [(("error").toList,
          .vstr (("Unknown route: ").toList ++ ("nope").toList))])), STATUS_FAILED⟩ ∧
      containsL (("Unknown route").toList)
        (("Unknown route: ").toList ++ ("nope").toList) = true ∧
      (∀ t, ¬ Ev.exec t ∈ [Ev.insert (("t1").toList),
        Ev.write (("t1").toList) STATUS_FAILED]) ∧
      (∀ ts, Handler.run taskProcessor
          (((("t1").toList, ("nope").toList, PyVal.vdict [])) :: ts) []
        = match Handler.run taskProcessor ts db' with
          | Except.error e => Except.error e
          | Except.ok (db2, evs2) =>
              Except.ok (db2, (Ev.dequeue (("t1").toList)
                :: [Ev.insert (("t1").toList),
                    Ev.write (("t1").toList) STATUS_FAILED]) ++ evs2))) :=
  ⟨rfl, rfl, C6_unknown_route taskProcessor [] (("t1").toList) (("nope").toList)
    (.vdict []) rfl rfl⟩

/-! ## Claim C7 -/

/-- C7: for a dispatched task with a known route, a handler that returns a
value yields status `ready` with that value serialized as the result; a
handler that raises yields status `failed` with the error description as
result; and in both cases `process_queue_task` returns normally, so the
dispatcher loop proceeds to the next queue item rather than crashing. -/
theorem C7_dispatch_outcomes (reg : Registry) (db : List TaskRow) (tid route : List Char)
    (payload : PyVal) (hd : PyVal → RunResult)
    (hfresh : findRow db tid = none) (hroute : reg route = some hd) :
    (∀ v, hd payload = .ok v →
      ∃ db', Handler.process_queue_task reg db (tid, route, payload)
          = .ok (db', [Ev.insert tid, Ev.exec tid, Ev.write tid STATUS_READY]) ∧
        findRow db' tid = some ⟨tid, route, .dbText (json_dumps v), STATUS_READY⟩) ∧
    (∀ msg, hd payload = .exn msg →
      ∃ db', Handler.process_queue_task reg db (tid, route, payload)
          = .ok (db', [Ev.insert tid, Ev.exec tid, Ev.write tid STATUS_FAILED]) ∧
        findRow db' tid = some ⟨tid, route,
          .dbText (json_dumps (.vdict [(("error").toList, .vstr msg)])),
          STATUS_FAILED⟩) ∧
    (∃ db' evs, Handler.process_queue_task reg db (tid, route, payload) = .ok (db', evs) ∧
      ∀ ts, Handler.run reg ((tid, route, payload) :: ts) db
        = match Handler.run reg ts db' with
          | Except.error e => Except.error e
          | Except.ok (db2, evs2) => Except.ok (db2, (Ev.dequeue tid :: evs) ++ evs2)) := by
  have hput : ResponseQueue.put db tid route payload
      = .ok (db ++ [(⟨tid, route, bindPayload payload, STATUS_PENDING⟩ : TaskRow)]) := by
    unfold ResponseQueue.put
    rw [hfresh]
    rfl
  have hbase := findRow_self_append db tid route (bindPayload payload)
    STATUS_PENDING hfresh
  refine ⟨?_, ?_, ?_⟩
  · intro v hv
    refine ⟨ResponseQueue.update_status
        (db ++ [(⟨tid, route, bindPayload payload, STATUS_PENDING⟩ : TaskRow)])
        tid STATUS_READY v, ?_, ?_⟩
    · simp only [Handler.process_queue_task, hput, hroute, hv]
    · rw [findRow_update_status_self, hbase]
      rfl
  · intro msg hmsg
    refine ⟨ResponseQueue.update_status
        (db ++ [(⟨tid, route, bindPayload payload, STATUS_PENDING⟩ : TaskRow)])
        tid STATUS_FAILED (.vdict [(("error").toList, .vstr msg)]), ?_, ?_⟩
    · simp only [Handler.process_queue_task, hput, hroute, hmsg]
    · rw [findRow_update_status_self, hbase]
      rfl
  · have hproc : ∃ db' evs,
        Handler.process_queue_task reg db (tid, route, payload) = .ok (db', evs) := by
      match hrun : hd payload with
      | .ok v =>
          exact ⟨ResponseQueue.update_status
            (db ++ [(⟨tid, route, bindPayload payload, STATUS_PENDING⟩ : TaskRow)])
            tid STATUS_READY v, [Ev.insert tid, Ev.exec tid, Ev.write tid STATUS_READY],
            by simp only [Handler.process_queue_task, hput, hroute, hrun]⟩
      | .exn msg =>
          exact ⟨ResponseQueue.update_status
            (db ++ [(⟨tid, route, bindPayload payload, STATUS_PENDING⟩ : TaskRow)])
            tid STATUS_FAILED (.vdict [(("error").toList, .vstr msg)]),
            [Ev.insert tid, Ev.exec tid, Ev.write tid STATUS_FAILED],
            by simp only [Handler.process_queue_task, hput, hroute, hrun]⟩
    obtain ⟨db', evs, hp⟩ := hproc
    refine ⟨db', evs, hp, ?_⟩
    intro ts
    show (match Handler.process_queue_task reg db (tid, route, payload) with
      | Except.error e => Except.error e
      | Except.ok (db1, evs1) =>
          match Handler.run reg ts db1 with
          | Except.error e => Except.error e
          | Except.ok (db2, evs2) => Except.ok (db2, (Ev.dequeue tid :: evs1) ++ evs2)) = _
    rw [hp]

/-- Witness for C7 using the concrete `TaskProcessor` registry and its
`put_task_queue` handler, which returns a fixed dict. -/
theorem C7_dispatch_outcomes_witness :
    findRow [] (("t1").toList) = none ∧
    taskProcessor (("put_task_queue").toList)
      = some (fun _ => .ok (.vdict
          [(("status").toList, .vstr (("task completed").toList)),
           (("processor").toList, .vstr (("TaskProcessor").toList))])) ∧
    (∃ db', Handler.process_queue_task taskProcessor []
        ((("t1").toList, ("put_task_queue").toList, PyVal.vdict []))
        = .ok (db', [Ev.insert (("t1").toList), Ev.exec (("t1").toList),
            Ev.write (("t1").toList) STATUS_READY]) ∧
      findRow db' (("t1").toList) = some ⟨("t1").toList, ("put_task_queue").toList,
        .dbText (json_dumps (.vdict
          [(("status").toList, .vstr (("task completed").toList)),
           (("processor").toList, .vstr (("TaskProcessor").toList))])), STATUS_READY⟩) :=
  ⟨rfl, rfl,
    (C7_dispatch_outcomes taskProcessor [] (("t1").toList) (("put_task_queue").toList)
      (.vdict [])
      (fun _ => .ok (.vdict
        [(("status").toList, .vstr (("task completed").toList)),
         (("processor").toList, .vstr (("TaskProcessor").toList))]))
      rfl rfl).1
      (.vdict [(("status").toList, .vstr (("task completed").toList)),
        (("processor").toList, .vstr (("TaskProcessor").toList))]) rfl⟩

/-! ## Claim C8 -/

/-- The terminal status the dispatcher records for a task, determined by
the registry resolution and the handler outcome (specification companion
for the trace characterization). -/
def dispatchStatus (reg : Registry) (t : List Char × List Char × PyVal) : List Char :=
  match reg t.2.1 with
  | none => STATUS_FAILED
  | some h =>
      match h t.2.2 with
      | .ok _ => STATUS_READY
      | .exn _ => STATUS_FAILED

/-- The events one dispatcher iteration emits for one task: its dequeue,
its Pending insert, its isolated execution when the route resolves, and
its terminal status write. -/
def taskTrace (reg : Registry) (t : List Char × List Char × PyVal) : List Ev :=
  Ev.dequeue t.1 :: Ev.insert t.1 ::
    (match reg t.2.1 with
     | none => [Ev.write t.1 STATUS_FAILED]
     | some _ => [Ev.exec t.1, Ev.write t.1 (dispatchStatus reg t)])

/-- The transaction ids of the status writes in a trace, in order. -/
def writesOf (evs : List Ev) : List (List Char) :=
  evs.filterMap (fun e => match e with
    | Ev.write tid _ => some tid
    | _ => none)

theorem process_of_fresh (reg : Registry) (db : List TaskRow)
    (t : List Char × List Char × PyVal) (hfresh : findRow db t.1 = none) :
    ∃ db', Handler.process_queue_task reg db t = .ok (db', (taskTrace reg t).tail) ∧
      db'.map (fun r => r.transaction_id) = db.map (fun r => r.transaction_id) ++ [t.1] := by
  obtain ⟨tid, route, payload⟩ := t
  have hput : ResponseQueue.put db tid route payload
      = .ok (db ++ [(⟨tid, route, bindPayload payload, STATUS_PENDING⟩ : TaskRow)]) := by
    unfold ResponseQueue.put
    rw [hfresh]
    rfl
  have htids : ∀ st p, (ResponseQueue.update_status
        (db ++ [(⟨tid, route, bindPayload payload, STATUS_PENDING⟩ : TaskRow)])
        tid st p).map (fun r => r.transaction_id)
      = db.map (fun r => r.transaction_id) ++ [tid] := by
    intro st p
    rw [tids_update_status, List.map_append]
    rfl
  match hroute : reg route with
  | none =>
      refine ⟨_, ?_, htids STATUS_FAILED (.vdict [(("error").toList,
        .vstr (("Unknown route: ").toList ++ route))])⟩
      simp only [Handler.process_queue_task, hput, hroute, taskTrace, dispatchStatus]
      rfl
  | some hd =>
      match hrun : hd payload with
      | .ok v =>
          refine ⟨_, ?_, htids STATUS_READY v⟩
          simp only [Handler.process_queue_task, hput, hroute, hrun, taskTrace, dispatchStatus]
          rfl
      | .exn msg =>
          refine ⟨_, ?_, htids STATUS_FAILED (.vdict [(("error").toList, .vstr msg)])⟩
          simp only [Handler.process_queue_task, hput, hroute, hrun, taskTrace, dispatchStatus]
          rfl

theorem writesOf_taskTrace (reg : Registry) (t : List Char × List Char × PyVal) :
    writesOf (taskTrace reg t) = [t.1] := by
  unfold writesOf taskTrace
  cases hreg : reg t.2.1 with
  | none => rfl
  | some hd => rfl

theorem writesOf_append (a b : List Ev) : writesOf (a ++ b) = writesOf a ++ writesOf b :=
  List.filterMap_append a b _

/-- C8: the dispatcher drains the queue strictly one task at a time in
FIFO order: the full trace is the concatenation of the per-task traces in
submission order — each task's terminal status write precedes the next
task's dequeue — and the sequence of terminal writes equals the sequence
of submitted transaction ids. -/
theorem C8_fifo (reg : Registry) (ts : List (List Char × List Char × PyVal))
    (db : List TaskRow)
    (hfresh : ∀ t ∈ ts, findRow db t.1 = none)
    (hnodup : (ts.map (fun t => t.1)).Nodup) :
    ∃ db', Handler.run reg ts db = .ok (db', (ts.map (taskTrace reg)).join) ∧
      writesOf ((ts.map (taskTrace reg)).join) = ts.map (fun t => t.1) := by
  induction ts generalizing db with
  | nil => exact ⟨db, rfl, rfl⟩
  | cons t ts ih =>
      obtain ⟨db1, hp, htids⟩ := process_of_fresh reg db t
        (hfresh t (List.mem_cons_self t ts))
      have hnd : (t.1 :: ts.map (fun t => t.1)).Nodup := by
        rw [List.map_cons] at hnodup
        exact hnodup
      have hnotmem : ¬ t.1 ∈ ts.map (fun t => t.1) := (List.nodup_cons.mp hnd).1
      have hnodup2 : (ts.map (fun t => t.1)).Nodup := (List.nodup_cons.mp hnd).2
      have hfresh2 : ∀ u ∈ ts, findRow db1 u.1 = none := by
        intro u hu
        rw [findRow_eq_none_iff]
        intro r hr
        have hmem : r.transaction_id ∈ db1.map (fun r => r.transaction_id) :=
          List.mem_map_of_mem _ hr
        rw [htids] at hmem
        rcases List.mem_append.mp hmem with hin | hin
        · obtain ⟨r0, hr0, he⟩ := List.mem_map.mp hin
          have hne := (findRow_eq_none_iff db u.1).mp
            (hfresh u (List.mem_cons_of_mem t hu)) r0 hr0
          rw [← he]
          exact hne
        · rw [List.mem_singleton] at hin
          rw [hin]
          intro hcontra
          exact hnotmem (hcontra ▸ List.mem_map_of_mem (fun t => t.1) hu)
      obtain ⟨db2, hrun, hwr⟩ := ih db1 hfresh2 hnodup2
      refine ⟨db2, ?_, ?_⟩
      · show (match Handler.process_queue_task reg db t with
          | Except.error e => Except.error e
          | Except.ok (db1, evs) =>
              match Handler.run reg ts db1 with
              | Except.error e => Except.error e
              | Except.ok (db2, evs2) => Except.ok (db2, (Ev.dequeue t.1 :: evs) ++ evs2)) = _
        rw [hp]
        show (match Handler.run reg ts db1 with
          | Except.error e => Except.error e
          | Except.ok (db2, evs2) =>
              Except.ok (db2, (Ev.dequeue t.1 :: (taskTrace reg t).tail) ++ evs2))
          = Except.ok (db2, ((t :: ts).map (taskTrace reg)).join)
        rw [hrun]
        rfl
      · show writesOf (taskTrace reg t ++ (ts.map (taskTrace reg)).join)
          = t.1 :: ts.map (fun t => t.1)
        rw [writesOf_append, writesOf_taskTrace, hwr]
        rfl

/-- Witness for C8: a two-task queue (one known route, one unknown) drains
in submission order with its full concatenated trace. -/
theorem C8_fifo_witness :
    (∀ t ∈ [((("t1").toList, ("put_task_queue").toList, PyVal.vdict [])),
            ((("t2").toList, ("nope").toList, PyVal.vnone))],
      findRow [] t.1 = none) ∧
    ([((("t1").toList, ("put_task_queue").toList, PyVal.vdict [])),
      ((("t2").toList, ("nope").toList, PyVal.vnone))].map (fun t => t.1)).Nodup ∧
    (∃ db', Handler.run taskProcessor
        [((("t1").toList, ("put_task_queue").toList, PyVal.vdict [])),
         ((("t2").toList, ("nope").toList, PyVal.vnone))] []
        = .ok (db',
          ([((("t1").toList, ("put_task_queue").toList, PyVal.vdict [])),
            ((("t2").toList, ("nope").toList, PyVal.vnone))].map
              (taskTrace taskProcessor)).join) ∧
      writesOf (([((("t1").toList, ("put_task_queue").toList, PyVal.vdict [])),
          ((("t2").toList, ("nope").toList, PyVal.vnone))].map
            (taskTrace taskProcessor)).join)
        = [((("t1").toList, ("put_task_queue").toList, PyVal.vdict [])),
           ((("t2").toList, ("nope").toList, PyVal.vnone))].map (fun t => t.1)) :=
  ⟨by intro t ht; rfl,
   by decide,
   C8_fifo taskProcessor
     [((("t1").toList, ("put_task_queue").toList, PyVal.vdict [])),
      ((("t2").toList, ("nope").toList, PyVal.vnone))] []
     (by intro t ht; rfl)
     (by decide)⟩
